import Mathlib

/-!
# Verification of the ICT-sentinel core against its specification

Shallow embedding of the analysis core of the repository: the structure
analyzer (`detectSwings`, `detectStructureShifts`), the zone detectors
(`detectFVG`, the `monthOpen` leg of `computeHtfLevels`), the signal-engine
admission function (`pushSignal` of `detectSignals`), and the trade
simulator (`simulateTradeOutcome` and the per-bar trade-resolution step).

Numbers are embedded as `ℚ` (prices, sizes) and `ℤ` (epoch-millisecond
timestamps); JavaScript `undefined`-able fields become `Option` values, and
every function is a total, executable Lean definition mirroring the source
control flow branch by branch.
-/

/-- Trade/signal direction (`'buy' | 'sell'`). -/
inductive Dir | buy | sell
deriving DecidableEq, Repr

/-- Market direction of a structure shift (`'bullish' | 'bearish'`). -/
inductive MarketDir | bullish | bearish
deriving DecidableEq, Repr

/-- Structure-shift label (`'BOS' | 'CHoCH'`). -/
inductive ShiftLabel | BOS | CHoCH
deriving DecidableEq, Repr

/-- Bias label (`'Bullish' | 'Bearish' | 'Neutral'`). -/
inductive BiasLabel | Bullish | Bearish | Neutral
deriving DecidableEq, Repr

/-- Swing type (`'high' | 'low'`). -/
inductive SwingType | high | low
deriving DecidableEq, Repr

/-- Trade result (`'win' | 'loss' | 'breakeven'`). -/
inductive TradeResult | win | loss | breakeven
deriving DecidableEq, Repr

/-- Trade lifecycle status (`'planned' | 'active' | 'closed' | 'canceled'`). -/
inductive TradeStatus | planned | active | closed | canceled
deriving DecidableEq, Repr

/-- An OHLCV price bar: `{t: epoch-ms, o,h,l,c, v}` (`types.ts`). -/
structure Candle where
  t : ℤ
  o : ℚ
  h : ℚ
  l : ℚ
  c : ℚ
  v : ℚ
deriving DecidableEq, Repr, Inhabited

/-- A swing pivot `{index, time, price, type}` (`types.ts`). -/
structure Swing where
  index : ℕ
  time : ℤ
  price : ℚ
  type : SwingType
deriving DecidableEq, Repr

/-- A fair-value gap `{startTime, endTime, top, bottom, type}` (`types.ts`).
`gapBullish` embeds the string tag `'bullish'` (`true`) / `'bearish'`. -/
structure Gap where
  startTime : ℤ
  endTime : ℤ
  top : ℚ
  bottom : ℚ
  gapBullish : Bool
deriving DecidableEq, Repr

/-- A structure shift `{time, price, direction, label}` (`types.ts`). -/
structure StructureShift where
  time : ℤ
  price : ℚ
  direction : MarketDir
  label : ShiftLabel
deriving DecidableEq, Repr

/-- JavaScript `Math.max(...xs)` over a non-empty spread; the `[]` case is
unreachable at every use site (`Math.max()` would be `-Infinity`). -/
def jsMaxList : List ℚ → ℚ
  | [] => 0
  | x :: xs => xs.foldl max x

/-- JavaScript `Math.min(...xs)` over a non-empty spread; the `[]` case is
unreachable at every use site (`Math.min()` would be `Infinity`). -/
def jsMinList : List ℚ → ℚ
  | [] => 0
  | x :: xs => xs.foldl min x

theorem jsMaxList_le_iff (x : ℚ) (l : List ℚ) (b : ℚ) :
    jsMaxList (x :: l) ≤ b ↔ x ≤ b ∧ ∀ y ∈ l, y ≤ b := by
  induction l generalizing x with
  | nil => simp [jsMaxList]
  | cons y ys ih =>
    have h1 := ih (max x y)
    simp only [jsMaxList, List.foldl_cons] at h1 ⊢
    rw [h1]
    constructor
    · rintro ⟨hxy, hall⟩
      exact ⟨le_trans (le_max_left _ _) hxy,
        fun z hz => by
          rcases List.mem_cons.mp hz with hz | hz
          · exact hz ▸ le_trans (le_max_right _ _) hxy
          · exact hall z hz⟩
    · rintro ⟨hx, hall⟩
      exact ⟨max_le hx (hall y (List.mem_cons_self _ _)),
        fun z hz => hall z (List.mem_cons_of_mem _ hz)⟩

theorem le_jsMinList_iff (x : ℚ) (l : List ℚ) (b : ℚ) :
    b ≤ jsMinList (x :: l) ↔ b ≤ x ∧ ∀ y ∈ l, b ≤ y := by
  induction l generalizing x with
  | nil => simp [jsMinList]
  | cons y ys ih =>
    have h1 := ih (min x y)
    simp only [jsMinList, List.foldl_cons] at h1 ⊢
    rw [h1]
    constructor
    · rintro ⟨hxy, hall⟩
      exact ⟨le_trans hxy (min_le_left _ _),
        fun z hz => by
          rcases List.mem_cons.mp hz with hz | hz
          · exact hz ▸ le_trans hxy (min_le_right _ _)
          · exact hall z hz⟩
    · rintro ⟨hx, hall⟩
      exact ⟨le_min hx (hall y (List.mem_cons_self _ _)),
        fun z hz => hall z (List.mem_cons_of_mem _ hz)⟩

theorem mem_le_jsMaxList (x : ℚ) (l : List ℚ) :
    ∀ y ∈ x :: l, y ≤ jsMaxList (x :: l) :=
  ((jsMaxList_le_iff x l (jsMaxList (x :: l))).mp le_rfl).elim
    (fun hx hall y hy => by
      rcases List.mem_cons.mp hy with hy | hy
      · exact hy ▸ hx
      · exact hall y hy)

theorem jsMinList_le_mem (x : ℚ) (l : List ℚ) :
    ∀ y ∈ x :: l, jsMinList (x :: l) ≤ y :=
  ((le_jsMinList_iff x l (jsMinList (x :: l))).mp le_rfl).elim
    (fun hx hall y hy => by
      rcases List.mem_cons.mp hy with hy | hy
      · exact hy ▸ hx
      · exact hall y hy)

/-! ## StructureAnalyzer: `detectSwings` (`src/lib/ict.ts`) -/

/-- The `±lookback` window `candles.slice(i - lookback, i + lookback + 1)`
around index `i` (only used when `lookback ≤ i`). -/
def swingWindow (candles : List Candle) (lookback i : ℕ) : List Candle :=
  (candles.drop (i - lookback)).take (2 * lookback + 1)

/-- Loop body of `detectSwings` at index `i`: emits the high swing and/or the
low swing exactly as the source pushes them (high first, then low).  The guard
`lookback ≤ i ∧ i + lookback < candles.length` is the `for` bound
`i = lookback; i < candles.length - lookback`. -/
def swingsAt (candles : List Candle) (lookback i : ℕ) : List Swing :=
  if lookback ≤ i ∧ i + lookback < candles.length then
    let window := swingWindow candles lookback i
    let center := candles.getD i default
    (if center.h = jsMaxList (window.map (·.h)) then
      [⟨i, center.t, center.h, .high⟩] else [])
    ++ (if center.l = jsMinList (window.map (·.l)) then
      [⟨i, center.t, center.l, .low⟩] else [])
  else []

/-- `detectSwings(candles, lookback)` (`ict.ts`): one pass over every index,
emitting a high swing when the bar's high equals the window maximum and a low
swing when its low equals the window minimum. -/
def detectSwings (candles : List Candle) (lookback : ℕ) : List Swing :=
  (List.range candles.length).flatMap (swingsAt candles lookback)

/-! ## ZoneDetectors: `detectFVG` (`src/lib/ict.ts`) -/

/-- Loop body of `detectFVG` at middle index `i` (`a = candles[i-1]`,
`b = candles[i]`, `c = candles[i+1]`): the bullish triple inequality
`a.h < c.l && b.l > a.h && b.l > c.h` and its bearish mirror. -/
def fvgAt (candles : List Candle) (i : ℕ) : List Gap :=
  if 1 ≤ i ∧ i + 1 < candles.length then
    let a := candles.getD (i - 1) default
    let b := candles.getD i default
    let c := candles.getD (i + 1) default
    (if a.h < c.l ∧ b.l > a.h ∧ b.l > c.h then
      [⟨a.t, c.t, a.h, c.l, true⟩] else [])
    ++ (if a.l > c.h ∧ b.h < a.l ∧ b.h < c.l then
      [⟨a.t, c.t, c.h, a.l, false⟩] else [])
  else []

/-- `detectFVG(candles)` (`ict.ts`): scans every interior 3-candle triple. -/
def detectFVG (candles : List Candle) : List Gap :=
  (List.range candles.length).flatMap (fvgAt candles)

theorem jsMaxList_eq_iff (l : List ℚ) (a : ℚ) (ha : a ∈ l) :
    a = jsMaxList l ↔ ∀ y ∈ l, y ≤ a := by
  cases l with
  | nil => cases ha
  | cons x xs =>
    constructor
    · intro h
      exact h ▸ mem_le_jsMaxList x xs
    · intro h
      refine le_antisymm ?_ ?_
      · exact mem_le_jsMaxList x xs a ha
      · exact (jsMaxList_le_iff x xs a).mpr
          ⟨h x (List.mem_cons_self _ _), fun y hy => h y (List.mem_cons_of_mem _ hy)⟩

theorem jsMinList_eq_iff (l : List ℚ) (a : ℚ) (ha : a ∈ l) :
    a = jsMinList l ↔ ∀ y ∈ l, a ≤ y := by
  cases l with
  | nil => cases ha
  | cons x xs =>
    constructor
    · intro h
      exact h ▸ jsMinList_le_mem x xs
    · intro h
      refine le_antisymm ?_ ?_
      · exact (le_jsMinList_iff x xs a).mpr
          ⟨h x (List.mem_cons_self _ _), fun y hy => h y (List.mem_cons_of_mem _ hy)⟩
      · exact jsMinList_le_mem x xs a ha

theorem center_mem_swingWindow (candles : List Candle) (L i : ℕ)
    (h1 : L ≤ i) (h2 : i + L < candles.length) :
    candles.getD i default ∈ swingWindow candles L i := by
  have hi : i < candles.length := by omega
  have hget : (swingWindow candles L i).get? L = some (candles.getD i default) := by
    unfold swingWindow
    rw [List.get?_take (by omega), List.get?_drop]
    have : i - L + L = i := by omega
    rw [this, List.get?_eq_get hi, List.getD_eq_get candles default hi]
  exact List.get?_mem hget

theorem mem_swingsAt_iff (candles : List Candle) (L i : ℕ) (sw : Swing) :
    sw ∈ swingsAt candles L i ↔
      (L ≤ i ∧ i + L < candles.length ∧
       ((sw = ⟨i, (candles.getD i default).t, (candles.getD i default).h, .high⟩ ∧
          (candles.getD i default).h = jsMaxList ((swingWindow candles L i).map (·.h)))
        ∨ (sw = ⟨i, (candles.getD i default).t, (candles.getD i default).l, .low⟩ ∧
          (candles.getD i default).l = jsMinList ((swingWindow candles L i).map (·.l))))) := by
  unfold swingsAt
  split_ifs with hguard
  · simp only [List.mem_append]
    constructor
    · intro h
      refine ⟨hguard.1, hguard.2, ?_⟩
      rcases h with h | h
      · split_ifs at h with hmax
        · simp only [List.mem_singleton] at h
          exact Or.inl ⟨h, hmax⟩
        · cases h
      · split_ifs at h with hmin
        · simp only [List.mem_singleton] at h
          exact Or.inr ⟨h, hmin⟩
        · cases h
    · rintro ⟨-, -, h | h⟩
      · exact Or.inl (by rw [if_pos h.2]; simp [h.1])
      · exact Or.inr (by rw [if_pos h.2]; simp [h.1])
  · simp only [List.not_mem_nil, false_iff]
    intro h
    exact hguard ⟨h.1, h.2.1⟩

/-- C7: a swing is returned by `detectSwings` exactly when its index has a
full `±lookback` window and the bar's high (resp. low) equals the window
maximum (resp. minimum); its fields come from that bar, so the price is the
true window extremum and indices outside `[lookback, length - lookback)`
never produce a swing. -/
theorem detectSwings_mem_iff (candles : List Candle) (L : ℕ) (sw : Swing) :
    sw ∈ detectSwings candles L ↔
      (L ≤ sw.index ∧ sw.index + L < candles.length ∧
       sw.time = (candles.getD sw.index default).t ∧
       ((sw.type = .high ∧ sw.price = (candles.getD sw.index default).h ∧
           ∀ x ∈ swingWindow candles L sw.index, x.h ≤ sw.price) ∨
        (sw.type = .low ∧ sw.price = (candles.getD sw.index default).l ∧
           ∀ x ∈ swingWindow candles L sw.index, sw.price ≤ x.l))) := by
  unfold detectSwings
  rw [List.mem_flatMap]
  constructor
  · rintro ⟨i, hi, hmem⟩
    rw [mem_swingsAt_iff] at hmem
    obtain ⟨hL, hlen, hcase⟩ := hmem
    have hcenter := center_mem_swingWindow candles L i hL hlen
    rcases hcase with ⟨hsw, hmax⟩ | ⟨hsw, hmin⟩
    · subst hsw
      refine ⟨hL, hlen, rfl, Or.inl ⟨rfl, rfl, ?_⟩⟩
      intro x hx
      have hmem' : (candles.getD i default).h ∈ (swingWindow candles L i).map (·.h) :=
        List.mem_map_of_mem _ hcenter
      have := (jsMaxList_eq_iff _ _ hmem').mp hmax
      exact this x.h (List.mem_map_of_mem _ hx)
    · subst hsw
      refine ⟨hL, hlen, rfl, Or.inr ⟨rfl, rfl, ?_⟩⟩
      intro x hx
      have hmem' : (candles.getD i default).l ∈ (swingWindow candles L i).map (·.l) :=
        List.mem_map_of_mem _ hcenter
      have := (jsMinList_eq_iff _ _ hmem').mp hmin
      exact this x.l (List.mem_map_of_mem _ hx)
  · rintro ⟨hL, hlen, htime, hcase⟩
    refine ⟨sw.index, List.mem_range.mpr (by omega), ?_⟩
    rw [mem_swingsAt_iff]
    have hcenter := center_mem_swingWindow candles L sw.index hL hlen
    refine ⟨hL, hlen, ?_⟩
    rcases hcase with ⟨hty, hpr, hall⟩ | ⟨hty, hpr, hall⟩
    · refine Or.inl ⟨?_, ?_⟩
      · cases sw
        simp_all
      · have hmem' : (candles.getD sw.index default).h ∈ (swingWindow candles L sw.index).map (·.h) :=
          List.mem_map_of_mem _ hcenter
        refine (jsMaxList_eq_iff _ _ hmem').mpr ?_
        intro y hy
        obtain ⟨x, hx, rfl⟩ := List.mem_map.mp hy
        exact hpr ▸ hall x hx
    · refine Or.inr ⟨?_, ?_⟩
      · cases sw
        simp_all
      · have hmem' : (candles.getD sw.index default).l ∈ (swingWindow candles L sw.index).map (·.l) :=
          List.mem_map_of_mem _ hcenter
        refine (jsMinList_eq_iff _ _ hmem').mpr ?_
        intro y hy
        obtain ⟨x, hx, rfl⟩ := List.mem_map.mp hy
        exact hpr ▸ hall x hx

/-- The three-candle scenario of the specification (§8), with concrete
opens/closes/volumes consistent with the given highs and lows:
`a={h:9,l:8}`, `b={h:9.3,l:9.1}`, `c={h:11,l:9.4}`. -/
def fvgScenario : List Candle :=
  [⟨0, 8.5, 9, 8, 8.8, 1⟩, ⟨1, 9.15, 9.3, 9.1, 9.25, 1⟩, ⟨2, 9.5, 11, 9.4, 10.5, 1⟩]

/-- C8 counterexample: on the specification's scenario triple, `detectFVG`
returns the empty list — not a single bullish gap `{top: 9, bottom: 9.4}` —
because the middle candle's low (9.1) does not exceed the third candle's
high (11), failing the code's `b.l > c.h` conjunct. -/
theorem detectFVG_scenario_refutes : detectFVG fvgScenario = [] := by
  show List.flatMap _ _ = _
  norm_num [fvgScenario, List.range_succ, fvgAt, List.flatMap_cons]

/-- C8 amended: for every choice of opens, closes, volumes and timestamps,
the triple `a={h:9,l:8}`, `b={h:9.3,l:9.1}`, `c={h:11,l:9.4}` produces no
gap at all under `detectFVG`: the bullish predicate requires `b.l > c.h`
(9.1 > 11, false) and the bearish predicate requires `a.l > c.h`
(8 > 11, false). -/
theorem detectFVG_scenario_empty (t1 t2 t3 : ℤ) (o1 c1 v1 o2 c2 v2 o3 c3 v3 : ℚ) :
    detectFVG [⟨t1, o1, 9, 8, c1, v1⟩, ⟨t2, o2, 9.3, 9.1, c2, v2⟩,
      ⟨t3, o3, 11, 9.4, c3, v3⟩] = [] := by
  show List.flatMap _ _ = _
  norm_num [List.range_succ, fvgAt, List.flatMap_cons]

/-! ## StructureAnalyzer: `detectStructureShifts` (`src/lib/ict.ts`) -/

/-- Optional tuning parameters of `detectStructureShifts`
(`StructureShiftOptions` in `ict.ts`); `none` fields take the source
defaults 1 / 3 / 0.00008. -/
structure StructureShiftOptions where
  minSwingDistance : Option ℤ := none
  minSpacingBars : Option ℤ := none
  minBreakPct : Option ℚ := none
deriving Repr

/-- Stable insertion of a swing into a time-sorted list (used to embed
`[...swings].sort((a, b) => a.time - b.time)`). -/
def insertByTime (s : Swing) : List Swing → List Swing
  | [] => [s]
  | x :: xs => if x.time < s.time then x :: insertByTime s xs else s :: x :: xs

/-- `[...swings].sort((a, b) => a.time - b.time)`: stable sort by time. -/
def sortByTime (swings : List Swing) : List Swing :=
  swings.foldr insertByTime []

/-- The two `while` pointer advances of the scan: consume every pending
swing whose `time ≤ t`, remembering the last one consumed as the active
swing (`highIdx++` / `lowIdx++` in the source). -/
def advanceSwings (t : ℤ) : Option Swing → List Swing → Option Swing × List Swing
  | act, [] => (act, [])
  | act, s :: rest =>
    if s.time ≤ t then advanceSwings t (some s) rest else (act, s :: rest)

/-- `hasDisplacement(candle, level, dir)` from `detectStructureShifts`:
a break needs the wick to clear the level by `buffer` and the close to clear
a lesser displacement threshold.  `range` embeds the JavaScript
`candle.h - candle.l || Math.abs(candle.c - candle.o) || 1` falsy chain. -/
def hasDisplacement (displacementAtr minBreakPct : ℚ) (candle : Candle)
    (level : ℚ) (up : Bool) : Bool :=
  let range := if candle.h - candle.l ≠ 0 then candle.h - candle.l
    else if |candle.c - candle.o| ≠ 0 then |candle.c - candle.o| else 1
  let atrThreshold := if displacementAtr > 0 then displacementAtr * 0.4
    else range * 0.35
  let buffer := max (level * minBreakPct) (atrThreshold * 0.1)
  if up then
    decide (candle.h > level + buffer ∧ candle.c > level + atrThreshold * 0.25)
  else
    decide (candle.l < level - buffer ∧ candle.c < level - atrThreshold * 0.25)

/-- Scan-local state of `detectStructureShifts`: the two swing pointers,
the running trend `state`, `lastShiftBar` (`none` models the initial
`-Infinity`) and the accumulated shifts. -/
structure ScanState where
  activeHigh : Option Swing
  pendingHigh : List Swing
  activeLow : Option Swing
  pendingLow : List Swing
  state : Option MarketDir
  lastShiftBar : Option ℤ
  shifts : List StructureShift
  bar : ℤ
deriving Repr

/-- One bar of the `detectStructureShifts` scan, without the loop-counter
increment (`ScanState.bar` is the `for` index of the source loop). -/
def structureBody (displacementAtr minBreakPct : ℚ)
    (minSwingDistance minSpacingBars : ℤ)
    (st : ScanState) (candle : Candle) : ScanState :=
  let bar : ℤ := st.bar
  let hp := advanceSwings candle.t st.activeHigh st.pendingHigh
  let lp := advanceSwings candle.t st.activeLow st.pendingLow
  let st := { st with activeHigh := hp.1, pendingHigh := hp.2,
                      activeLow := lp.1, pendingLow := lp.2 }
  let brokeHigh : Bool := match st.activeHigh with
    | some s =>
      if bar - (s.index : ℤ) ≥ minSwingDistance then
        hasDisplacement displacementAtr minBreakPct candle s.price true
      else false
    | none => false
  let brokeLow : Bool := match st.activeLow with
    | some s =>
      if bar - (s.index : ℤ) ≥ minSwingDistance then
        hasDisplacement displacementAtr minBreakPct candle s.price false
      else false
    | none => false
  if h1 : brokeHigh ∧ st.state ≠ some .bullish ∧ st.activeHigh.isSome then
    if spacingFail : ∃ lb ∈ st.lastShiftBar, bar - lb < minSpacingBars then st
    else
      { st with
        shifts := st.shifts ++ [⟨candle.t, (Option.get st.activeHigh h1.2.2).price,
          .bullish, if st.state = some .bearish then .CHoCH else .BOS⟩],
        state := some .bullish,
        lastShiftBar := some bar }
  else if h2 : brokeLow ∧ st.state ≠ some .bearish ∧ st.activeLow.isSome then
    if spacingFail : ∃ lb ∈ st.lastShiftBar, bar - lb < minSpacingBars then st
    else
      { st with
        shifts := st.shifts ++ [⟨candle.t, (Option.get st.activeLow h2.2.2).price,
          .bearish, if st.state = some .bullish then .CHoCH else .BOS⟩],
        state := some .bearish,
        lastShiftBar := some bar }
  else st

/-- One bar of the `detectStructureShifts` scan: the body, then the loop
counter advances to the next bar. -/
def structureStep (displacementAtr minBreakPct : ℚ)
    (minSwingDistance minSpacingBars : ℤ)
    (st : ScanState) (candle : Candle) : ScanState :=
  { structureBody displacementAtr minBreakPct minSwingDistance minSpacingBars
      st candle with bar := st.bar + 1 }

/-- The full (uncapped) left-to-right scan of `detectStructureShifts`:
sorted swings split into high/low lists, then one `structureStep` per bar.
Returns the final scan state. -/
def structureScanState (candles : List Candle) (swings : List Swing)
    (displacementAtr : ℚ) (options : Option StructureShiftOptions) : ScanState :=
  let minSwingDistance := (options.bind (·.minSwingDistance)).getD 1
  let minSpacingBars := (options.bind (·.minSpacingBars)).getD 3
  let minBreakPct := (options.bind (·.minBreakPct)).getD 0.00008
  let sorted := sortByTime swings
  let highSwings := sorted.filter (fun s => s.type = .high)
  let lowSwings := sorted.filter (fun s => s.type = .low)
  candles.foldl
    (structureStep displacementAtr minBreakPct minSwingDistance minSpacingBars)
    ⟨none, highSwings, none, lowSwings, none, none, [], 0⟩

/-- All shifts the scan would push (`shifts` before the final `slice`). -/
def structureScan (candles : List Candle) (swings : List Swing)
    (displacementAtr : ℚ) (options : Option StructureShiftOptions) :
    List StructureShift :=
  (structureScanState candles swings displacementAtr options).shifts

/-- `xs.slice(-n)`: the last `n` elements (the whole list when shorter). -/
def takeLast (n : ℕ) (l : List StructureShift) : List StructureShift :=
  l.drop (l.length - n)

/-- `detectStructureShifts(candles, swings, displacementAtr, options)`
(`ict.ts`): early-out on insufficient data, full scan, then
`shifts.slice(-30)`. -/
def detectStructureShifts (candles : List Candle) (swings : List Swing)
    (displacementAtr : ℚ) (options : Option StructureShiftOptions) :
    List StructureShift :=
  if candles.length = 0 ∨ swings.length < 2 then []
  else takeLast 30 (structureScan candles swings displacementAtr options)

/-- The shape invariant of the shift list: directions alternate, the head
(if any) is labeled BOS, and every later shift is labeled CHoCH. -/
def GoodShifts (l : List StructureShift) : Prop :=
  l.Chain' (fun a b => a.direction ≠ b.direction) ∧
  (∀ hd ∈ l.head?, hd.label = .BOS) ∧
  (∀ x ∈ l.tail, x.label = .CHoCH)

/-- The scan invariant: the accumulated shifts are well-shaped, a `null`
trend state means no shift yet, and a set trend state equals the direction
of the most recent shift. -/
def ScanInv (st : ScanState) : Prop :=
  GoodShifts st.shifts ∧
  (st.state = none → st.shifts = []) ∧
  (∀ d, st.state = some d → ∃ last ∈ st.shifts.getLast?, last.direction = d)

theorem goodShifts_append (l : List StructureShift) (x : StructureShift)
    (hgood : GoodShifts l)
    (hlast : ∀ last ∈ l.getLast?, last.direction ≠ x.direction)
    (hlabel : l = [] → x.label = .BOS) (hlabel' : l ≠ [] → x.label = .CHoCH) :
    GoodShifts (l ++ [x]) := by
  obtain ⟨hchain, hhead, htail⟩ := hgood
  refine ⟨?_, ?_, ?_⟩
  · rw [List.chain'_append]
    exact ⟨hchain, List.chain'_singleton x, fun a ha b hb => by
      simp only [List.head?_cons, Option.mem_some_iff] at hb
      exact hb ▸ hlast a ha⟩
  · cases l with
    | nil =>
      intro hd hhd
      simp only [List.nil_append, List.head?_cons, Option.mem_some_iff] at hhd
      exact hhd ▸ hlabel rfl
    | cons a as =>
      intro hd hhd
      simp only [List.cons_append, List.head?_cons, Option.mem_some_iff] at hhd
      exact hhd ▸ hhead a (by simp)
  · cases l with
    | nil =>
      intro y hy
      simp at hy
    | cons a as =>
      intro y hy
      simp only [List.cons_append, List.tail_cons, List.mem_append,
        List.mem_singleton] at hy
      rcases hy with hy | hy
      · exact htail y (by simpa using hy)
      · exact hy ▸ hlabel' (by simp)

/-- The direction opposite to `d`. -/
def dirFlip : MarketDir → MarketDir
  | .bullish => .bearish
  | .bearish => .bullish

theorem structureStep_shifts (displacementAtr minBreakPct : ℚ)
    (minSwingDistance minSpacingBars : ℤ) (st : ScanState) (candle : Candle) :
    (let R := structureStep displacementAtr minBreakPct minSwingDistance
        minSpacingBars st candle
     (R.state = st.state ∧ R.shifts = st.shifts) ∨
     (∃ dir price, st.state ≠ some dir ∧ R.state = some dir ∧
        R.shifts = st.shifts ++ [⟨candle.t, price, dir,
          if st.state = some (dirFlip dir) then .CHoCH else .BOS⟩])) := by
  unfold structureStep structureBody
  dsimp only
  split_ifs with h1 hsp hlab h2 hsp2 hlab2
  · exact Or.inl ⟨rfl, rfl⟩
  · refine Or.inr ⟨.bullish, ((advanceSwings candle.t st.activeHigh st.pendingHigh).1.get
      h1.2.2).price, h1.2.1, rfl, ?_⟩
    simp [dirFlip, hlab]
  · refine Or.inr ⟨.bullish, ((advanceSwings candle.t st.activeHigh st.pendingHigh).1.get
      h1.2.2).price, h1.2.1, rfl, ?_⟩
    simp [dirFlip, hlab]
  · exact Or.inl ⟨rfl, rfl⟩
  · refine Or.inr ⟨.bearish, ((advanceSwings candle.t st.activeLow st.pendingLow).1.get
      h2.2.2).price, h2.2.1, rfl, ?_⟩
    simp [dirFlip, hlab2]
  · refine Or.inr ⟨.bearish, ((advanceSwings candle.t st.activeLow st.pendingLow).1.get
      h2.2.2).price, h2.2.1, rfl, ?_⟩
    simp [dirFlip, hlab2]
  · exact Or.inl ⟨rfl, rfl⟩

theorem scanInv_step (displacementAtr minBreakPct : ℚ)
    (minSwingDistance minSpacingBars : ℤ) (st : ScanState) (candle : Candle)
    (hinv : ScanInv st) :
    ScanInv (structureStep displacementAtr minBreakPct minSwingDistance
      minSpacingBars st candle) := by
  obtain ⟨hgood, hnone, hsome⟩ := hinv
  rcases structureStep_shifts displacementAtr minBreakPct minSwingDistance
      minSpacingBars st candle with ⟨hstate, hshifts⟩ | ⟨dir, price, hne, hstate, hshifts⟩
  · exact ⟨hshifts ▸ hgood, fun h => hshifts ▸ hnone (hstate ▸ h),
      fun d hd => hshifts ▸ hsome d (hstate ▸ hd)⟩
  · constructor
    · rw [hshifts]
      refine goodShifts_append _ _ hgood ?_ ?_ ?_
      · intro last hlast
        cases hstcur : st.state with
        | none => simp [hnone hstcur] at hlast
        | some e =>
          obtain ⟨last', hlast', hdir⟩ := hsome e hstcur
          rw [Option.mem_def] at hlast hlast'
          rw [hlast] at hlast'
          cases hlast'
          have : e ≠ dir := fun h => hne (h ▸ hstcur)
          simp only [hdir]
          exact this
      · intro hl
        cases hstcur : st.state with
        | none => simp [hstcur]
        | some e =>
          obtain ⟨last', hlast', -⟩ := hsome e hstcur
          rw [hl] at hlast'
          simp at hlast'
      · intro hl
        cases hstcur : st.state with
        | none => exact absurd (hnone hstcur) hl
        | some e =>
          have he : e ≠ dir := fun h => hne (h ▸ hstcur)
          have : e = dirFlip dir := by
            cases e <;> cases dir <;> simp_all [dirFlip]
          simp [hstcur, this]
    · refine ⟨fun h => ?_, fun d hd => ?_⟩
      · rw [hstate] at h
        cases h
      · rw [hstate] at hd
        injection hd with hdd
        subst hdd
        refine ⟨⟨candle.t, price, dir,
          if st.state = some (dirFlip dir) then .CHoCH else .BOS⟩, ?_, rfl⟩
        rw [hshifts]
        simp [List.getLast?_concat]

theorem scanInv_foldl (displacementAtr minBreakPct : ℚ)
    (minSwingDistance minSpacingBars : ℤ) :
    ∀ (l : List Candle) (st : ScanState), ScanInv st →
      ScanInv (l.foldl (structureStep displacementAtr minBreakPct
        minSwingDistance minSpacingBars) st)
  | [], _, h => h
  | c :: rest, st, h =>
    scanInv_foldl displacementAtr minBreakPct minSwingDistance minSpacingBars
      rest _ (scanInv_step _ _ _ _ st c h)

theorem structureScan_good (candles : List Candle) (swings : List Swing)
    (displacementAtr : ℚ) (options : Option StructureShiftOptions) :
    GoodShifts (structureScan candles swings displacementAtr options) := by
  have h := scanInv_foldl displacementAtr
    ((options.bind (·.minBreakPct)).getD 0.00008)
    ((options.bind (·.minSwingDistance)).getD 1)
    ((options.bind (·.minSpacingBars)).getD 3)
    candles
    ⟨none, (sortByTime swings).filter (fun s => s.type = .high), none,
      (sortByTime swings).filter (fun s => s.type = .low), none, none, [], 0⟩
    ⟨⟨List.chain'_nil, by simp, by simp⟩, fun _ => rfl, fun d hd => by cases hd⟩
  exact h.1

theorem chain'_drop {α : Type} {R : α → α → Prop} :
    ∀ (n : ℕ) (l : List α), l.Chain' R → (l.drop n).Chain' R
  | 0, _, h => h
  | _ + 1, [], _ => List.chain'_nil
  | n + 1, _ :: xs, h => chain'_drop n xs (List.Chain'.tail h)

/-- C6 (amended): the shifts returned by `detectStructureShifts` never place
two consecutive shifts with the same direction, and every returned shift
after the first is labeled CHoCH; the first returned shift is labeled BOS
whenever the scan produced at most 30 shifts in total — the output is the
`slice(-30)` suffix of the scan, so when more than 30 shifts fire the
initial BOS is dropped and the returned head is a CHoCH. -/
theorem detectStructureShifts_alternation (candles : List Candle)
    (swings : List Swing) (displacementAtr : ℚ)
    (options : Option StructureShiftOptions) :
    List.Chain' (fun a b => a.direction ≠ b.direction)
        (detectStructureShifts candles swings displacementAtr options) ∧
    (∀ x ∈ (detectStructureShifts candles swings displacementAtr options).tail,
        x.label = .CHoCH) ∧
    ((structureScan candles swings displacementAtr options).length ≤ 30 →
      ∀ hd ∈ (detectStructureShifts candles swings displacementAtr
        options).head?, hd.label = .BOS) := by
  obtain ⟨hchain, hhead, htail⟩ :=
    structureScan_good candles swings displacementAtr options
  unfold detectStructureShifts
  split_ifs with hguard
  · refine ⟨List.chain'_nil, ?_, ?_⟩
    · intro x hx
      simp at hx
    · intro _ hd hhd
      simp at hhd
  · refine ⟨?_, ?_, ?_⟩
    · exact chain'_drop _ _ hchain
    · intro x hx
      unfold takeLast at hx
      rw [List.tail_drop] at hx
      have hx' : x ∈ (structureScan candles swings displacementAtr
          options).tail.drop ((structureScan candles swings displacementAtr
          options).length - 30) := by
        rw [List.drop_tail]
        exact hx
      exact htail x (List.drop_subset _ _ hx')
    · intro hlen
      have : takeLast 30 (structureScan candles swings displacementAtr
          options) = structureScan candles swings displacementAtr options := by
        unfold takeLast
        rw [Nat.sub_eq_zero_of_le hlen, List.drop_zero]
      rw [this]
      exact hhead

/-- Concrete scenario with 31 structure shifts: bullish-breaking bars
(close far above the tracked swing high 100) alternate with
bearish-breaking bars (close far below the tracked swing low 90), one shift
per bar under `minSwingDistance = 0`, `minSpacingBars = 1`,
`minBreakPct = 0`. -/
def shiftBar (i : ℕ) : Candle :=
  if i % 2 = 0 then ⟨(i : ℤ), 100, 200, 0, 200, 0⟩
  else ⟨(i : ℤ), 100, 200, 0, 0, 0⟩

/-- 31 alternating breaking bars. -/
def shiftCandles : List Candle := (List.range 31).map shiftBar

/-- One tracked swing high at 100 and one tracked swing low at 90. -/
def shiftSwings : List Swing := [⟨0, 0, 100, .high⟩, ⟨0, 0, 90, .low⟩]

/-- The options used by the C6 counterexample. -/
def shiftOpts : StructureShiftOptions := ⟨some 0, some 1, some 0⟩

theorem swingType_low_high : (SwingType.low = SwingType.high) = False :=
  eq_false (fun h => SwingType.noConfusion h)

theorem swingType_high_low : (SwingType.high = SwingType.low) = False :=
  eq_false (fun h => SwingType.noConfusion h)

theorem shiftStep0 :
    structureStep 10 0 0 1
      ⟨none, [⟨0, 0, 100, .high⟩], none, [⟨0, 0, 90, .low⟩], none, none, [], 0⟩
      ⟨0, 100, 200, 0, 200, 0⟩
    = ⟨some ⟨0, 0, 100, .high⟩, [], some ⟨0, 0, 90, .low⟩, [], some .bullish,
      some 0, [⟨0, 100, .bullish, .BOS⟩], 1⟩ := by
  have hadvH : advanceSwings 0 none [⟨0, 0, 100, .high⟩]
      = (some ⟨0, 0, 100, .high⟩, []) := by
    norm_num [advanceSwings]
  have hadvL : advanceSwings 0 none [⟨0, 0, 90, .low⟩]
      = (some ⟨0, 0, 90, .low⟩, []) := by
    norm_num [advanceSwings]
  have hbig : hasDisplacement 10 0 ⟨0, 100, 200, 0, 200, 0⟩ 100 true = true := by
    norm_num [hasDisplacement]
  unfold structureStep structureBody
  dsimp only
  simp only [hadvH, hadvL, hbig]
  rw [dif_pos ⟨by norm_num, by simp, rfl⟩]
  rw [dif_neg (by simp)]
  rfl

theorem shiftStepA (t b b' : ℤ) (state : Option MarketDir) (lsb : Option ℤ)
    (sh : List StructureShift) (hb : 0 ≤ b) (hb' : b' = b + 1)
    (hstate : state ≠ some .bullish) (hlsb : ¬∃ lb ∈ lsb, b - lb < 1) :
    structureStep 10 0 0 1
      ⟨some ⟨0, 0, 100, .high⟩, [], some ⟨0, 0, 90, .low⟩, [], state, lsb, sh, b⟩
      ⟨t, 100, 200, 0, 200, 0⟩
    = ⟨some ⟨0, 0, 100, .high⟩, [], some ⟨0, 0, 90, .low⟩, [], some .bullish,
      some b, sh ++ [⟨t, 100, .bullish,
        if state = some .bearish then .CHoCH else .BOS⟩], b'⟩ := by
  subst hb'
  have hbig : hasDisplacement 10 0 ⟨t, 100, 200, 0, 200, 0⟩ 100 true = true := by
    norm_num [hasDisplacement]
  have hlow : hasDisplacement 10 0 ⟨t, 100, 200, 0, 200, 0⟩ 90 false = false := by
    norm_num [hasDisplacement]
  have h0 : ((b : ℤ) - ((0 : ℕ) : ℤ) ≥ 0) := by omega
  unfold structureStep structureBody
  dsimp only [advanceSwings]
  simp only [if_pos h0, hbig, hlow]
  rw [dif_pos ⟨trivial, hstate, rfl⟩]
  rw [dif_neg hlsb]
  rfl

theorem shiftStepB (t b b' : ℤ) (state : Option MarketDir) (lsb : Option ℤ)
    (sh : List StructureShift) (hb : 0 ≤ b) (hb' : b' = b + 1)
    (hstate : state ≠ some .bearish) (hlsb : ¬∃ lb ∈ lsb, b - lb < 1) :
    structureStep 10 0 0 1
      ⟨some ⟨0, 0, 100, .high⟩, [], some ⟨0, 0, 90, .low⟩, [], state, lsb, sh, b⟩
      ⟨t, 100, 200, 0, 0, 0⟩
    = ⟨some ⟨0, 0, 100, .high⟩, [], some ⟨0, 0, 90, .low⟩, [], some .bearish,
      some b, sh ++ [⟨t, 90, .bearish,
        if state = some .bullish then .CHoCH else .BOS⟩], b'⟩ := by
  subst hb'
  have hbig : hasDisplacement 10 0 ⟨t, 100, 200, 0, 0, 0⟩ 100 true = false := by
    norm_num [hasDisplacement]
  have hlow : hasDisplacement 10 0 ⟨t, 100, 200, 0, 0, 0⟩ 90 false = true := by
    norm_num [hasDisplacement]
  have h0 : ((b : ℤ) - ((0 : ℕ) : ℤ) ≥ 0) := by omega
  unfold structureStep structureBody
  dsimp only [advanceSwings]
  simp only [if_pos h0, hbig, hlow]
  rw [dif_neg (by simp)]
  rw [dif_pos ⟨trivial, hstate, rfl⟩]
  rw [dif_neg hlsb]
  rfl

/-- The 31 shifts the scan produces on `shiftCandles`: a BOS, then 30
alternating CHoCHs. -/
def shiftExpected : List StructureShift :=
  [⟨0, 100, .bullish, .BOS⟩,
   ⟨1, 90, .bearish, .CHoCH⟩,
   ⟨2, 100, .bullish, .CHoCH⟩,
   ⟨3, 90, .bearish, .CHoCH⟩,
   ⟨4, 100, .bullish, .CHoCH⟩,
   ⟨5, 90, .bearish, .CHoCH⟩,
   ⟨6, 100, .bullish, .CHoCH⟩,
   ⟨7, 90, .bearish, .CHoCH⟩,
   ⟨8, 100, .bullish, .CHoCH⟩,
   ⟨9, 90, .bearish, .CHoCH⟩,
   ⟨10, 100, .bullish, .CHoCH⟩,
   ⟨11, 90, .bearish, .CHoCH⟩,
   ⟨12, 100, .bullish, .CHoCH⟩,
   ⟨13, 90, .bearish, .CHoCH⟩,
   ⟨14, 100, .bullish, .CHoCH⟩,
   ⟨15, 90, .bearish, .CHoCH⟩,
   ⟨16, 100, .bullish, .CHoCH⟩,
   ⟨17, 90, .bearish, .CHoCH⟩,
   ⟨18, 100, .bullish, .CHoCH⟩,
   ⟨19, 90, .bearish, .CHoCH⟩,
   ⟨20, 100, .bullish, .CHoCH⟩,
   ⟨21, 90, .bearish, .CHoCH⟩,
   ⟨22, 100, .bullish, .CHoCH⟩,
   ⟨23, 90, .bearish, .CHoCH⟩,
   ⟨24, 100, .bullish, .CHoCH⟩,
   ⟨25, 90, .bearish, .CHoCH⟩,
   ⟨26, 100, .bullish, .CHoCH⟩,
   ⟨27, 90, .bearish, .CHoCH⟩,
   ⟨28, 100, .bullish, .CHoCH⟩,
   ⟨29, 90, .bearish, .CHoCH⟩,
   ⟨30, 100, .bullish, .CHoCH⟩]

set_option maxRecDepth 4000 in
theorem structureScan_shiftCandles :
    structureScan shiftCandles shiftSwings 10 (some shiftOpts)
      = shiftExpected := by
  norm_num [structureScan, structureScanState, sortByTime, insertByTime,
    shiftSwings, shiftOpts, shiftCandles, List.range_succ, shiftBar,
    List.filter_cons, List.filter_nil, swingType_low_high, swingType_high_low,
    shiftStep0]
  rw [shiftStepB 1 1 2 _ _ _ (by norm_num) (by norm_num) (by simp) (by simp)]
  rw [shiftStepA 2 2 3 _ _ _ (by norm_num) (by norm_num) (by simp) (by simp)]
  rw [shiftStepB 3 3 4 _ _ _ (by norm_num) (by norm_num) (by simp) (by simp)]
  rw [shiftStepA 4 4 5 _ _ _ (by norm_num) (by norm_num) (by simp) (by simp)]
  rw [shiftStepB 5 5 6 _ _ _ (by norm_num) (by norm_num) (by simp) (by simp)]
  rw [shiftStepA 6 6 7 _ _ _ (by norm_num) (by norm_num) (by simp) (by simp)]
  rw [shiftStepB 7 7 8 _ _ _ (by norm_num) (by norm_num) (by simp) (by simp)]
  rw [shiftStepA 8 8 9 _ _ _ (by norm_num) (by norm_num) (by simp) (by simp)]
  rw [shiftStepB 9 9 10 _ _ _ (by norm_num) (by norm_num) (by simp) (by simp)]
  rw [shiftStepA 10 10 11 _ _ _ (by norm_num) (by norm_num) (by simp) (by simp)]
  rw [shiftStepB 11 11 12 _ _ _ (by norm_num) (by norm_num) (by simp) (by simp)]
  rw [shiftStepA 12 12 13 _ _ _ (by norm_num) (by norm_num) (by simp) (by simp)]
  rw [shiftStepB 13 13 14 _ _ _ (by norm_num) (by norm_num) (by simp) (by simp)]
  rw [shiftStepA 14 14 15 _ _ _ (by norm_num) (by norm_num) (by simp) (by simp)]
  rw [shiftStepB 15 15 16 _ _ _ (by norm_num) (by norm_num) (by simp) (by simp)]
  rw [shiftStepA 16 16 17 _ _ _ (by norm_num) (by norm_num) (by simp) (by simp)]
  rw [shiftStepB 17 17 18 _ _ _ (by norm_num) (by norm_num) (by simp) (by simp)]
  rw [shiftStepA 18 18 19 _ _ _ (by norm_num) (by norm_num) (by simp) (by simp)]
  rw [shiftStepB 19 19 20 _ _ _ (by norm_num) (by norm_num) (by simp) (by simp)]
  rw [shiftStepA 20 20 21 _ _ _ (by norm_num) (by norm_num) (by simp) (by simp)]
  rw [shiftStepB 21 21 22 _ _ _ (by norm_num) (by norm_num) (by simp) (by simp)]
  rw [shiftStepA 22 22 23 _ _ _ (by norm_num) (by norm_num) (by simp) (by simp)]
  rw [shiftStepB 23 23 24 _ _ _ (by norm_num) (by norm_num) (by simp) (by simp)]
  rw [shiftStepA 24 24 25 _ _ _ (by norm_num) (by norm_num) (by simp) (by simp)]
  rw [shiftStepB 25 25 26 _ _ _ (by norm_num) (by norm_num) (by simp) (by simp)]
  rw [shiftStepA 26 26 27 _ _ _ (by norm_num) (by norm_num) (by simp) (by simp)]
  rw [shiftStepB 27 27 28 _ _ _ (by norm_num) (by norm_num) (by simp) (by simp)]
  rw [shiftStepA 28 28 29 _ _ _ (by norm_num) (by norm_num) (by simp) (by simp)]
  rw [shiftStepB 29 29 30 _ _ _ (by norm_num) (by norm_num) (by simp) (by simp)]
  rw [shiftStepA 30 30 31 _ _ _ (by norm_num) (by norm_num) (by simp) (by simp)]
  norm_num [shiftExpected]

/-- C6 counterexample: on `shiftCandles` (31 alternating structure breaks)
the first element of the returned list is labeled CHoCH, not BOS — the
31-shift scan is capped by `slice(-30)`, which drops the initial BOS. -/
theorem detectStructureShifts_head_counterexample :
    (detectStructureShifts shiftCandles shiftSwings 10
      (some shiftOpts)).head?.map (·.label) = some .CHoCH := by
  unfold detectStructureShifts
  rw [if_neg (by norm_num [shiftCandles, shiftSwings])]
  rw [structureScan_shiftCandles]
  norm_num [shiftExpected, takeLast]

/-- C6 witness input: a single bullish-breaking bar. -/
def shiftOneBar : List Candle := [⟨0, 100, 200, 0, 200, 0⟩]

/-- C6 witness: on a one-bar input producing a single shift, the scan stays
under the 30-shift cap and the theorem yields a BOS-labeled head. -/
theorem detectStructureShifts_alternation_witness :
    ∀ hd ∈ (detectStructureShifts shiftOneBar shiftSwings 10
      (some shiftOpts)).head?, hd.label = .BOS := by
  have h := (detectStructureShifts_alternation shiftOneBar shiftSwings 10
    (some shiftOpts)).2.2
  apply h
  have : structureScan shiftOneBar shiftSwings 10 (some shiftOpts)
      = [⟨0, 100, .bullish, .BOS⟩] := by
    norm_num [structureScan, structureScanState, sortByTime, insertByTime,
      shiftSwings, shiftOpts, shiftOneBar, List.filter_cons, List.filter_nil,
      swingType_low_high, swingType_high_low, shiftStep0]
  rw [this]
  norm_num

/-- C7 witness input: three bars with a swing high and swing low at bar 1. -/
def swWitnessCandles : List Candle :=
  [⟨0, 1, 1, 0, 1, 1⟩, ⟨1, 2, 5, -1, 4, 1⟩, ⟨2, 1, 2, 0, 1, 1⟩]

/-- C7 witness: the characterization applied at a concrete input — bar 1 of
`swWitnessCandles` satisfies the window-maximum condition for lookback 1,
so `detectSwings` returns its high swing. -/
theorem detectSwings_mem_iff_witness :
    (⟨1, 1, 5, .high⟩ : Swing) ∈ detectSwings swWitnessCandles 1 := by
  apply (detectSwings_mem_iff swWitnessCandles 1 ⟨1, 1, 5, .high⟩).mpr
  refine ⟨by norm_num, by norm_num [swWitnessCandles], ?_, Or.inl ⟨rfl, ?_, ?_⟩⟩
  · norm_num [swWitnessCandles]
  · norm_num [swWitnessCandles]
  · intro x hx
    simp only [swWitnessCandles, swingWindow] at hx
    norm_num at hx
    rcases hx with hx | hx | hx <;> subst hx <;> norm_num

/-! ## ZoneDetectors: the `monthOpen` leg of `computeHtfLevels`
(`src/lib/ict.ts`) -/

/-- Epoch-day number of an epoch-millisecond timestamp (UTC). -/
def utcDayNumber (t : ℤ) : ℤ := t.fdiv 86400000

/-- Proleptic-Gregorian civil date `(year, month 1-12, day 1-31)` of an
epoch-day number, as JavaScript `Date` UTC accessors compute it. -/
def civilFromDays (z0 : ℤ) : ℤ × ℤ × ℤ :=
  let z := z0 + 719468
  let era := z.fdiv 146097
  let doe := z - era * 146097
  let yoe := (doe - doe.fdiv 1460 + doe.fdiv 36524 - doe.fdiv 146096).fdiv 365
  let doy := doe - (365 * yoe + yoe.fdiv 4 - yoe.fdiv 100)
  let mp := (5 * doy + 2).fdiv 153
  let d := doy - (153 * mp + 2).fdiv 5 + 1
  let m := if mp < 10 then mp + 3 else mp - 9
  (yoe + era * 400 + (if m ≤ 2 then 1 else 0), m, d)

/-- JavaScript `new Date(t).getUTCDate()`: the day of month, 1-31. -/
def getUTCDate (t : ℤ) : ℤ := (civilFromDays (utcDayNumber t)).2.2

/-- JavaScript `new Date(t).getUTCHours()`. -/
def getUTCHours (t : ℤ) : ℤ := (t % 86400000).fdiv 3600000

/-- The UTC `(year, month)` pair of a timestamp. -/
def utcYearMonth (t : ℤ) : ℤ × ℤ :=
  ((civilFromDays (utcDayNumber t)).1, (civilFromDays (utcDayNumber t)).2.1)

/-- The predicate of the `months.find` in `computeHtfLevels`:
`d.getUTCDate() === 1 && d.getUTCHours() === 0`. -/
def isMonthBoundary (c : Candle) : Bool :=
  decide (getUTCDate c.t = 1 ∧ getUTCHours c.t = 0)

/-- Stable insertion of a candle into a time-sorted list. -/
def insertCandleByTime (c : Candle) : List Candle → List Candle
  | [] => [c]
  | x :: xs => if x.t < c.t then x :: insertCandleByTime c xs
    else c :: x :: xs

/-- `[...candles].sort((a, b) => a.t - b.t)`: stable sort by time. -/
def sortCandlesByTime (candles : List Candle) : List Candle :=
  candles.foldr insertCandleByTime []

/-- The `monthOpen` field of `computeHtfLevels(candles)` (`ict.ts`): `null`
for an empty array; otherwise the candles are sorted by time and the first
candle at an exact UTC month boundary (`getUTCDate() === 1 &&
getUTCHours() === 0`) supplies its open, falling back to `candles[0].o`. -/
def monthOpenOfHtf (candles : List Candle) : Option ℚ :=
  match candles with
  | [] => none
  | c0 :: _ =>
    let months := sortCandlesByTime candles
    some (((months.find? isMonthBoundary).map (·.o)).getD c0.o)

/-- The behaviour the specification describes for `monthOpen`: the open of
the first candle (in time order) of the calendar month containing the
latest candle. -/
def specMonthOpen (candles : List Candle) : Option ℚ :=
  let sorted := sortCandlesByTime candles
  match sorted.getLast? with
  | none => none
  | some latest =>
    ((sorted.filter (fun c =>
        utcYearMonth c.t = utcYearMonth latest.t)).head?).map (·.o)

/-- 2024-03-01T00:00:00Z, open 10. -/
def htfMarch : Candle := ⟨1709251200000, 10, 11, 9, 10, 1⟩

/-- 2024-04-01T00:00:00Z, open 20. -/
def htfApril : Candle := ⟨1711929600000, 20, 21, 19, 20, 1⟩

/-- A two-month candle array whose latest candle opens April at 20. -/
def htfCandles : List Candle := [htfMarch, htfApril]

theorem sortCandlesByTime_eq_self :
    ∀ l : List Candle, List.Chain' (fun a b => a.t < b.t) l →
      sortCandlesByTime l = l
  | [], _ => rfl
  | c :: rest, h => by
    have hrest := sortCandlesByTime_eq_self rest h.tail
    show insertCandleByTime c (sortCandlesByTime rest) = c :: rest
    rw [hrest]
    cases rest with
    | nil => rfl
    | cons x xs =>
      have hcx : c.t < x.t := List.chain'_cons.mp h |>.1
      unfold insertCandleByTime
      rw [if_neg (by omega)]

/-- C9 counterexample: on a March-1 candle (open 10) followed by an April-1
candle (open 20), `computeHtfLevels` reports `monthOpen = 10` — the open of
the earliest month-boundary candle in the whole array — while the open of
the first candle of the month containing the latest candle (April) is 20. -/
theorem monthOpen_counterexample :
    monthOpenOfHtf htfCandles = some 10 ∧
    specMonthOpen htfCandles = some 20 ∧
    monthOpenOfHtf htfCandles ≠ specMonthOpen htfCandles := by decide

/-- C9 (amended): for every non-empty candle array, already sorted strictly
ascending in time (the `Candle` invariant), the `monthOpen` field equals the
open of the earliest candle sitting exactly on a UTC month boundary
(`getUTCDate() = 1` and `getUTCHours() = 0`, in any month of the array) and
falls back to the first candle's open when no such candle exists; it is not
in general the open of the month containing the latest candle. -/
theorem monthOpen_of_sorted (candles : List Candle) (c0 : Candle)
    (rest : List Candle) (hc : candles = c0 :: rest)
    (hsorted : List.Chain' (fun a b => a.t < b.t) candles) :
    monthOpenOfHtf candles
      = some (((candles.find? isMonthBoundary).map (·.o)).getD c0.o) := by
  subst hc
  unfold monthOpenOfHtf
  rw [sortCandlesByTime_eq_self _ hsorted]

/-- C9 witness: the amended statement applied to the concrete two-candle
array; the earliest month-boundary candle is the March one, open 10. -/
theorem monthOpen_of_sorted_witness : monthOpenOfHtf htfCandles = some 10 := by
  have h := monthOpen_of_sorted htfCandles htfMarch [htfApril] rfl
    (by norm_num [htfCandles, htfMarch, htfApril])
  rw [h]
  decide

/-! ## SignalEngine: the `pushSignal` admission pipeline of `detectSignals`
(`src/lib/ict.ts`)

`detectSignals` evaluates ~20 rule blocks per bar; every candidate signal
goes through the single closure `pushSignal`.  The embedding models
`pushSignal` as a state transition: the per-bar ambient values it reads
(`currentSignalContext`, `atrValues[barIndex]`, the day key of
`candles[barIndex].t`, the setup-table lookups and the outcomes of the
helper predicates `evaluateSetupFilters` / `respectsSessionOpen`) are
packaged as a `PushCtx`, so every theorem below holds for all possible
values of those externals. -/

/-- A trade signal (`Signal` in `types.ts`). -/
structure Signal where
  time : ℤ
  price : ℚ
  direction : Dir
  basis : String
  setup : Option String := none
  stop : Option ℚ := none
  tp1 : Option ℚ := none
  tp2 : Option ℚ := none
  tp3 : Option ℚ := none
  tp4 : Option ℚ := none
  sizeMultiplier : Option ℚ := none
  session : Option String := none
  bias : Option BiasLabel := none
deriving Repr, DecidableEq

/-- The constants of `detectSignals` (`ict.ts` lines 255-263). -/
def RR_TP1 : ℚ := 1.5
def RR_TP2 : ℚ := 3
def RR_TP3 : ℚ := 4.5
def RR_TP4 : ℚ := 6
def MIN_R_MULTIPLE : ℚ := 1.25
def SETUP_COOLDOWN : ℤ := 5
def GLOBAL_COOLDOWN : ℤ := 2
def MAX_SIGNALS_PER_BAR : ℕ := 1
def MAX_TRADES_PER_DAY : ℕ := 12

/-- The ambient values one `pushSignal` call reads.  `filterOutcome`
abstracts `evaluateSetupFilters` (`none` = candidate filtered out, `some m`
= pass with size multiplier `m`); `sessionOpenReject` abstracts
`currentDayLevels && !respectsSessionOpen(...)`; `tierOne`, `disabled`,
`lowConfluence`, `riskCap` and `priority` are the set/map lookups for the
candidate's setup name; `dayKey` is the UTC day of `candles[barIndex].t`;
`atr` is `atrValues[barIndex] ?? 0`; `sweepDirDown` is
`sweepContext?.direction` (`none` when no sweep context). -/
structure PushCtx where
  sessionLabel : String
  biasLabel : BiasLabel
  htfBuyZone : Bool
  htfSellZone : Bool
  isKillZone : Bool
  isLondonOrNy : Bool
  filterOutcome : Option ℚ
  enforceSessionOpenFilter : Bool
  sessionOpenReject : Bool
  biasFreeze : Bool
  atr : ℚ
  dayKey : ℤ
  tierOne : Bool
  disabled : Bool
  lowConfluence : Bool
  riskCap : Option ℚ
  priority : ℚ
  sweepDirDown : Option Bool
  asiaActive : Bool

/-- `lastSignalMeta` after at least one admission (initially the source
holds `{direction: null, priority: 0, barIndex: -Infinity}`, modeled as
`none`). -/
structure SignalMeta where
  direction : Dir
  priority : ℚ
  barIndex : ℤ

/-- One admitted signal together with the bar index and day key under which
`pushSignal` admitted it (the bar/day are the ghost data the counters
`signalsPerBar` / `signalsPerDay` are keyed by). -/
structure Admission where
  bar : ℤ
  dayKey : ℤ
  signal : Signal

/-- The mutable engine state threaded through `pushSignal` calls:
`signals` (as `admissions`), `lastSignalIndex`, `lastSignalBar` (`none`
models `-Infinity`), `lastSignalMeta`, and the three counters (JavaScript
records with `?? 0` reads become total functions defaulting to 0). -/
structure EngineState where
  admissions : List Admission
  lastSignalIndex : String → Option ℤ
  lastSignalBar : Option ℤ
  lastSignalMeta : Option SignalMeta
  signalsPerBar : ℤ → ℕ
  signalsPerDay : ℤ → ℕ
  tierTwoSessions : ℤ × String → ℕ

/-- The engine state at the start of a `detectSignals` pass. -/
def initialEngineState : EngineState :=
  ⟨[], fun _ => none, none, none, fun _ => 0, fun _ => 0, fun _ => 0⟩

/-- JavaScript falsiness of an optional number (`!x`: `undefined` or 0). -/
def jsFalsyQ (o : Option ℚ) : Bool := decide (o.getD 0 = 0)

/-- The signed risk `direction === 'buy' ? price - stop : stop - price`. -/
def riskOf (dir : Dir) (price stopv : ℚ) : ℚ :=
  match dir with
  | .buy => price - stopv
  | .sell => stopv - price

/-- `price + off` for a buy, `price - off` for a sell (the shape of every
target assignment in `pushSignal`). -/
def dirOff (dir : Dir) (price off : ℚ) : ℚ :=
  match dir with
  | .buy => price + off
  | .sell => price - off

/-- The signed reward of a target: positive exactly when the target lies
strictly beyond the entry in the profit direction. -/
def rewardOf (dir : Dir) (price target : ℚ) : ℚ :=
  match dir with
  | .buy => target - price
  | .sell => price - target

/-- Lines 384-389 of `pushSignal`: default the session label and bias label
from the current signal context when the candidate lacks them. -/
def withDefaults (ctx : PushCtx) (s : Signal) : Signal :=
  { s with
    session := if s.session.getD "" = "" then some ctx.sessionLabel
      else s.session,
    bias := if s.bias = none then some ctx.biasLabel else s.bias }

/-- Line 409: `s.sizeMultiplier = (s.sizeMultiplier ?? 1) *
filterOutcome.sizeMultiplier`. -/
def applyFilterMult (m : ℚ) (s : Signal) : Signal :=
  { s with sizeMultiplier := some (s.sizeMultiplier.getD 1 * m) }

/-- `if (!s.tpN) { s.tpN = ... }`: fill a target only when it is falsy
(`undefined` or 0). -/
def fillMissingTp1 (v : ℚ) (s : Signal) : Signal :=
  if jsFalsyQ s.tp1 then { s with tp1 := some v } else s

/-- See `fillMissingTp1`. -/
def fillMissingTp2 (v : ℚ) (s : Signal) : Signal :=
  if jsFalsyQ s.tp2 then { s with tp2 := some v } else s

/-- See `fillMissingTp1`. -/
def fillMissingTp3 (v : ℚ) (s : Signal) : Signal :=
  if jsFalsyQ s.tp3 then { s with tp3 := some v } else s

/-- See `fillMissingTp1`. -/
def fillMissingTp4 (v : ℚ) (s : Signal) : Signal :=
  if jsFalsyQ s.tp4 then { s with tp4 := some v } else s

/-- Lines 457-491 of `pushSignal`: synthesize the missing targets from risk
multiples (with ATR-scaled floors), then, when the realized TP1 reward/risk
ratio is below `MIN_R_MULTIPLE`, rescale TP1 to `MIN_R_MULTIPLE` risk
multiples and fill any still-missing targets from that adjusted risk. -/
def applyTargets (dir : Dir) (price risk atr : ℚ) (tierOne : Bool)
    (s : Signal) : Signal :=
  let tp1Mult := if tierOne then RR_TP1 else max 2 RR_TP1
  let tp2Mult := if tierOne then RR_TP2 else max RR_TP2 (tp1Mult + 1)
  let tp3Mult := if tierOne then RR_TP3 else max RR_TP3 (tp2Mult + 1.5)
  let tp4Mult := if tierOne then RR_TP4 else max RR_TP4 (tp3Mult + 1.5)
  let s := fillMissingTp1 (dirOff dir price (max (risk * tp1Mult) (atr * 1.5))) s
  let s := fillMissingTp2 (dirOff dir price (max (risk * tp2Mult) (atr * 2))) s
  let s := fillMissingTp3 (dirOff dir price (max (risk * tp3Mult) (atr * 3))) s
  let s := fillMissingTp4 (dirOff dir price (max (risk * tp4Mult) (atr * 4))) s
  let rr := if s.tp1 ≠ none ∧ risk > 0 then |s.tp1.getD 0 - price| / risk
    else MIN_R_MULTIPLE
  if rr < MIN_R_MULTIPLE then
    let adj := risk * MIN_R_MULTIPLE
    fillMissingTp4 (dirOff dir price (adj * 4))
      (fillMissingTp3 (dirOff dir price (adj * 3))
        (fillMissingTp2 (dirOff dir price (adj * 2))
          { s with tp1 := some (dirOff dir price adj) }))
  else s

/-- Lines 535-540 of `pushSignal`: the final position sizing
`баseSize * (s.sizeMultiplier ?? 1)`. -/
def applySizing (ctx : PushCtx) (s : Signal) : Signal :=
  let sizeBaseline := max (|s.price| * 0.0008) 0.000001
  let rawSize := if ctx.atr > 0 then min 2.5 (max 0.5 (ctx.atr / sizeBaseline))
    else 1
  let baseSize := if ctx.tierOne then max 0.75 (min 1.5 rawSize) else rawSize
  { s with sizeMultiplier := some (baseSize * s.sizeMultiplier.getD 1) }

/-- Lines 541-546 of `pushSignal`: append the signal and update the
cooldown/priority/per-bar/per-day/per-session state (`bumpSession` is set
on the non-tier-one path, whose session counter was incremented at line
533). -/
def admitSignal (ctx : PushCtx) (barIndex : ℤ) (setupKey : String)
    (priority : ℚ) (bumpSession : Bool) (s : Signal) (st : EngineState) :
    EngineState :=
  let s := applySizing ctx s
  { admissions := st.admissions ++ [⟨barIndex, ctx.dayKey, s⟩],
    lastSignalIndex := fun k => if k = setupKey then some barIndex
      else st.lastSignalIndex k,
    lastSignalBar := some barIndex,
    lastSignalMeta := some ⟨s.direction, ctx.priority, barIndex⟩,
    signalsPerBar := fun b => if b = barIndex
      then st.signalsPerBar barIndex + 1 else st.signalsPerBar b,
    signalsPerDay := fun d => if d = ctx.dayKey
      then st.signalsPerDay ctx.dayKey + 1 else st.signalsPerDay d,
    tierTwoSessions := if bumpSession then
      (fun k => if k = (ctx.dayKey, ctx.sessionLabel)
        then st.tierTwoSessions k + 1 else st.tierTwoSessions k)
      else st.tierTwoSessions }

/-- Lines 493-546 of `pushSignal`: the context-confluence, direction-flip,
daily-cap, per-session-cap and sizing stages (everything after the risk
block). -/
def pushSignalTail (ctx : PushCtx) (barIndex : ℤ) (setupKey : String)
    (s : Signal) (st : EngineState) : EngineState :=
  let biasSupport : Bool := match s.direction with
    | .buy => ctx.htfBuyZone || decide (ctx.biasLabel = .Bullish)
    | .sell => ctx.htfSellZone || decide (ctx.biasLabel = .Bearish)
  let sweepConfluence : Bool := match ctx.sweepDirDown, s.direction with
    | some true, .buy => true
    | some false, .sell => true
    | _, _ => false
  let asiaSupport : Bool := ctx.asiaActive && biasSupport
  if ¬ctx.tierOne ∧
      ¬((ctx.isLondonOrNy ∧ (ctx.isKillZone ∨ biasSupport)) ∧
        (sweepConfluence ∨ asiaSupport)) then st
  else if ctx.tierOne ∧ ctx.isLondonOrNy ∧ ¬sweepConfluence then st
  else if ctx.lowConfluence ∧ ¬biasSupport then st
  else
    let oppositeFlip := ∃ m ∈ st.lastSignalMeta,
      s.direction ≠ m.direction ∧ barIndex - m.barIndex ≤ 1
    let biasSupportsNewDirection : Bool := match s.direction with
      | .buy => decide (ctx.biasLabel = .Bullish) && ctx.htfBuyZone
      | .sell => decide (ctx.biasLabel = .Bearish) && ctx.htfSellZone
    if oppositeFlip ∧ ¬((∃ m ∈ st.lastSignalMeta, ctx.priority > m.priority) ∨
        biasSupportsNewDirection) then st
    else if st.signalsPerDay ctx.dayKey ≥ MAX_TRADES_PER_DAY then st
    else if ¬ctx.tierOne ∧
        st.tierTwoSessions (ctx.dayKey, ctx.sessionLabel) ≥ 1 then st
    else admitSignal ctx barIndex setupKey ctx.priority (¬ctx.tierOne) s st

/-- The risk block of `pushSignal` (`ict.ts` lines 436-492 plus the tail):
with a stop present, validate risk (> 0, ATR noise floor, minimum risk
floor, ATR caps) and synthesize targets; without one, proceed directly. -/
def pushSignalRisk (ctx : PushCtx) (barIndex : ℤ) (setupKey : String)
    (stopOpt : Option ℚ) (s2 : Signal) (st : EngineState) : EngineState :=
  match stopOpt with
  | some stopv =>
    let risk := riskOf s2.direction s2.price stopv
    if risk ≤ 0 then st
    else if ¬ctx.tierOne ∧ ctx.atr < |s2.price| * 0.0003 then st
    else
      let pipFloor := max (|s2.price| * 0.000004) 0.00001
      let atrFloor := if ctx.atr > 0
        then min (ctx.atr * 0.02) (|s2.price| * 0.0006) else 0
      let minRisk := max pipFloor atrFloor
      if risk < minRisk then st
      else if ctx.atr > 0 ∧ risk > ctx.atr * 4 then st
      else if ∃ cap ∈ ctx.riskCap,
          cap ≠ 0 ∧ ctx.atr > 0 ∧ risk > ctx.atr * cap then st
      else pushSignalTail ctx barIndex setupKey
        (applyTargets s2.direction s2.price risk ctx.atr ctx.tierOne s2) st
  | none => pushSignalTail ctx barIndex setupKey s2 st

/-- The guard chain of `pushSignal` after the adaptive-filter stage
(`ict.ts` lines 411-546): session-open filter, bias freeze, global
cooldown, per-bar cap, disabled setups, per-setup cooldown, then the risk
block and the tail stages. -/
def pushSignalRest (ctx : PushCtx) (barIndex : ℤ) (s2 : Signal)
    (st : EngineState) : EngineState :=
  if ctx.enforceSessionOpenFilter ∧ ctx.sessionOpenReject then st
  else if ctx.biasFreeze then st
  else if ∃ lb ∈ st.lastSignalBar, barIndex - lb < GLOBAL_COOLDOWN then st
  else if st.signalsPerBar barIndex ≥ MAX_SIGNALS_PER_BAR then st
  else if ctx.disabled then st
  else
    let setupKey := s2.setup.getD "default"
    if ∃ li ∈ st.lastSignalIndex setupKey,
        barIndex - li < SETUP_COOLDOWN then st
    else pushSignalRisk ctx barIndex setupKey s2.stop s2 st

/-- The admission choke point `pushSignal(s, barIndex)` of `detectSignals`
(`ict.ts` lines 383-547), as a state transition.  Every guard of the
source appears in order; a guard failure returns the state unchanged
(the JavaScript `return`). -/
def pushSignal (ctx : PushCtx) (s0 : Signal) (barIndex : ℤ)
    (st : EngineState) : EngineState :=
  let s1 := withDefaults ctx s0
  let filtered : Option Signal :=
    if s1.setup.getD "" ≠ "" then
      match ctx.filterOutcome with
      | none => none
      | some m => some (applyFilterMult m s1)
    else some s1
  match filtered with
  | none => st
  | some s2 => pushSignalRest ctx barIndex s2 st

/-- One rule-block submission to `pushSignal`: the candidate signal, the
bar index and the ambient context of that bar. -/
structure Submission where
  ctx : PushCtx
  signal : Signal
  bar : ℤ

/-- A full `detectSignals` pass at the admission level: every candidate any
rule block constructs is pushed through `pushSignal` in order. -/
def runEngine (subs : List Submission) : EngineState :=
  subs.foldl (fun st sub => pushSignal sub.ctx sub.signal sub.bar st)
    initialEngineState

theorem withDefaults_core (ctx : PushCtx) (s : Signal) :
    (withDefaults ctx s).time = s.time ∧ (withDefaults ctx s).price = s.price ∧
    (withDefaults ctx s).direction = s.direction ∧
    (withDefaults ctx s).stop = s.stop ∧ (withDefaults ctx s).setup = s.setup ∧
    (withDefaults ctx s).tp1 = s.tp1 ∧ (withDefaults ctx s).tp2 = s.tp2 ∧
    (withDefaults ctx s).tp3 = s.tp3 ∧ (withDefaults ctx s).tp4 = s.tp4 :=
  ⟨rfl, rfl, rfl, rfl, rfl, rfl, rfl, rfl, rfl⟩

theorem applyFilterMult_core (m : ℚ) (s : Signal) :
    (applyFilterMult m s).time = s.time ∧ (applyFilterMult m s).price = s.price ∧
    (applyFilterMult m s).direction = s.direction ∧
    (applyFilterMult m s).stop = s.stop ∧ (applyFilterMult m s).setup = s.setup ∧
    (applyFilterMult m s).tp1 = s.tp1 ∧ (applyFilterMult m s).tp2 = s.tp2 ∧
    (applyFilterMult m s).tp3 = s.tp3 ∧ (applyFilterMult m s).tp4 = s.tp4 :=
  ⟨rfl, rfl, rfl, rfl, rfl, rfl, rfl, rfl, rfl⟩

theorem applySizing_core (ctx : PushCtx) (s : Signal) :
    (applySizing ctx s).time = s.time ∧ (applySizing ctx s).price = s.price ∧
    (applySizing ctx s).direction = s.direction ∧
    (applySizing ctx s).stop = s.stop ∧
    (applySizing ctx s).tp1 = s.tp1 ∧ (applySizing ctx s).tp2 = s.tp2 ∧
    (applySizing ctx s).tp3 = s.tp3 ∧ (applySizing ctx s).tp4 = s.tp4 :=
  ⟨rfl, rfl, rfl, rfl, rfl, rfl, rfl, rfl⟩

theorem fillMissingTp1_time (v : ℚ) (s : Signal) :
    (fillMissingTp1 v s).time = s.time := by
  unfold fillMissingTp1
  split_ifs <;> rfl

theorem fillMissingTp1_price (v : ℚ) (s : Signal) :
    (fillMissingTp1 v s).price = s.price := by
  unfold fillMissingTp1
  split_ifs <;> rfl

theorem fillMissingTp1_direction (v : ℚ) (s : Signal) :
    (fillMissingTp1 v s).direction = s.direction := by
  unfold fillMissingTp1
  split_ifs <;> rfl

theorem fillMissingTp1_stop (v : ℚ) (s : Signal) :
    (fillMissingTp1 v s).stop = s.stop := by
  unfold fillMissingTp1
  split_ifs <;> rfl

theorem fillMissingTp1_tp1 (v : ℚ) (s : Signal) :
    (fillMissingTp1 v s).tp1
      = if jsFalsyQ s.tp1 then some v else s.tp1 := by
  unfold fillMissingTp1
  split_ifs <;> rfl

theorem fillMissingTp1_tp2 (v : ℚ) (s : Signal) :
    (fillMissingTp1 v s).tp2 = s.tp2 := by
  unfold fillMissingTp1
  split_ifs <;> rfl

theorem fillMissingTp1_tp3 (v : ℚ) (s : Signal) :
    (fillMissingTp1 v s).tp3 = s.tp3 := by
  unfold fillMissingTp1
  split_ifs <;> rfl

theorem fillMissingTp1_tp4 (v : ℚ) (s : Signal) :
    (fillMissingTp1 v s).tp4 = s.tp4 := by
  unfold fillMissingTp1
  split_ifs <;> rfl

theorem fillMissingTp2_time (v : ℚ) (s : Signal) :
    (fillMissingTp2 v s).time = s.time := by
  unfold fillMissingTp2
  split_ifs <;> rfl

theorem fillMissingTp2_price (v : ℚ) (s : Signal) :
    (fillMissingTp2 v s).price = s.price := by
  unfold fillMissingTp2
  split_ifs <;> rfl

theorem fillMissingTp2_direction (v : ℚ) (s : Signal) :
    (fillMissingTp2 v s).direction = s.direction := by
  unfold fillMissingTp2
  split_ifs <;> rfl

theorem fillMissingTp2_stop (v : ℚ) (s : Signal) :
    (fillMissingTp2 v s).stop = s.stop := by
  unfold fillMissingTp2
  split_ifs <;> rfl

theorem fillMissingTp2_tp1 (v : ℚ) (s : Signal) :
    (fillMissingTp2 v s).tp1 = s.tp1 := by
  unfold fillMissingTp2
  split_ifs <;> rfl

theorem fillMissingTp2_tp2 (v : ℚ) (s : Signal) :
    (fillMissingTp2 v s).tp2
      = if jsFalsyQ s.tp2 then some v else s.tp2 := by
  unfold fillMissingTp2
  split_ifs <;> rfl

theorem fillMissingTp2_tp3 (v : ℚ) (s : Signal) :
    (fillMissingTp2 v s).tp3 = s.tp3 := by
  unfold fillMissingTp2
  split_ifs <;> rfl

theorem fillMissingTp2_tp4 (v : ℚ) (s : Signal) :
    (fillMissingTp2 v s).tp4 = s.tp4 := by
  unfold fillMissingTp2
  split_ifs <;> rfl

theorem fillMissingTp3_time (v : ℚ) (s : Signal) :
    (fillMissingTp3 v s).time = s.time := by
  unfold fillMissingTp3
  split_ifs <;> rfl

theorem fillMissingTp3_price (v : ℚ) (s : Signal) :
    (fillMissingTp3 v s).price = s.price := by
  unfold fillMissingTp3
  split_ifs <;> rfl

theorem fillMissingTp3_direction (v : ℚ) (s : Signal) :
    (fillMissingTp3 v s).direction = s.direction := by
  unfold fillMissingTp3
  split_ifs <;> rfl

theorem fillMissingTp3_stop (v : ℚ) (s : Signal) :
    (fillMissingTp3 v s).stop = s.stop := by
  unfold fillMissingTp3
  split_ifs <;> rfl

theorem fillMissingTp3_tp1 (v : ℚ) (s : Signal) :
    (fillMissingTp3 v s).tp1 = s.tp1 := by
  unfold fillMissingTp3
  split_ifs <;> rfl

theorem fillMissingTp3_tp2 (v : ℚ) (s : Signal) :
    (fillMissingTp3 v s).tp2 = s.tp2 := by
  unfold fillMissingTp3
  split_ifs <;> rfl

theorem fillMissingTp3_tp3 (v : ℚ) (s : Signal) :
    (fillMissingTp3 v s).tp3
      = if jsFalsyQ s.tp3 then some v else s.tp3 := by
  unfold fillMissingTp3
  split_ifs <;> rfl

theorem fillMissingTp3_tp4 (v : ℚ) (s : Signal) :
    (fillMissingTp3 v s).tp4 = s.tp4 := by
  unfold fillMissingTp3
  split_ifs <;> rfl

theorem fillMissingTp4_time (v : ℚ) (s : Signal) :
    (fillMissingTp4 v s).time = s.time := by
  unfold fillMissingTp4
  split_ifs <;> rfl

theorem fillMissingTp4_price (v : ℚ) (s : Signal) :
    (fillMissingTp4 v s).price = s.price := by
  unfold fillMissingTp4
  split_ifs <;> rfl

theorem fillMissingTp4_direction (v : ℚ) (s : Signal) :
    (fillMissingTp4 v s).direction = s.direction := by
  unfold fillMissingTp4
  split_ifs <;> rfl

theorem fillMissingTp4_stop (v : ℚ) (s : Signal) :
    (fillMissingTp4 v s).stop = s.stop := by
  unfold fillMissingTp4
  split_ifs <;> rfl

theorem fillMissingTp4_tp1 (v : ℚ) (s : Signal) :
    (fillMissingTp4 v s).tp1 = s.tp1 := by
  unfold fillMissingTp4
  split_ifs <;> rfl

theorem fillMissingTp4_tp2 (v : ℚ) (s : Signal) :
    (fillMissingTp4 v s).tp2 = s.tp2 := by
  unfold fillMissingTp4
  split_ifs <;> rfl

theorem fillMissingTp4_tp3 (v : ℚ) (s : Signal) :
    (fillMissingTp4 v s).tp3 = s.tp3 := by
  unfold fillMissingTp4
  split_ifs <;> rfl

theorem fillMissingTp4_tp4 (v : ℚ) (s : Signal) :
    (fillMissingTp4 v s).tp4
      = if jsFalsyQ s.tp4 then some v else s.tp4 := by
  unfold fillMissingTp4
  split_ifs <;> rfl

theorem applyTargets_core (dir : Dir) (price risk atr : ℚ) (tierOne : Bool)
    (s : Signal) :
    (applyTargets dir price risk atr tierOne s).time = s.time ∧
    (applyTargets dir price risk atr tierOne s).price = s.price ∧
    (applyTargets dir price risk atr tierOne s).direction = s.direction ∧
    (applyTargets dir price risk atr tierOne s).stop = s.stop := by
  unfold applyTargets
  dsimp only
  split_ifs with h <;>
    simp only [fillMissingTp1_time, fillMissingTp2_time, fillMissingTp3_time,
      fillMissingTp4_time, fillMissingTp1_price, fillMissingTp2_price,
      fillMissingTp3_price, fillMissingTp4_price, fillMissingTp1_direction,
      fillMissingTp2_direction, fillMissingTp3_direction,
      fillMissingTp4_direction, fillMissingTp1_stop, fillMissingTp2_stop,
      fillMissingTp3_stop, fillMissingTp4_stop] <;>
    exact ⟨trivial, trivial, trivial, trivial⟩

theorem pushSignalTail_cases (ctx : PushCtx) (barIndex : ℤ)
    (setupKey : String) (s : Signal) (st : EngineState) :
    pushSignalTail ctx barIndex setupKey s st = st ∨
    (st.signalsPerDay ctx.dayKey < MAX_TRADES_PER_DAY ∧
     pushSignalTail ctx barIndex setupKey s st
       = admitSignal ctx barIndex setupKey ctx.priority (¬ctx.tierOne) s st) := by
  unfold pushSignalTail
  dsimp only
  split_ifs with h1 h2 h3 h4 h5 h6
  · exact Or.inl rfl
  · exact Or.inl rfl
  · exact Or.inl rfl
  · exact Or.inl rfl
  · exact Or.inl rfl
  · exact Or.inl rfl
  · exact Or.inr ⟨Nat.lt_of_not_le h5, rfl⟩

theorem admitSignal_parts (ctx : PushCtx) (barIndex : ℤ) (setupKey : String)
    (priority : ℚ) (bumpSession : Bool) (s : Signal) (st : EngineState) :
    (admitSignal ctx barIndex setupKey priority bumpSession s st).admissions
      = st.admissions ++ [⟨barIndex, ctx.dayKey, applySizing ctx s⟩] ∧
    (admitSignal ctx barIndex setupKey priority bumpSession s st).signalsPerBar
      = (fun b => if b = barIndex then st.signalsPerBar barIndex + 1
          else st.signalsPerBar b) ∧
    (admitSignal ctx barIndex setupKey priority bumpSession s st).signalsPerDay
      = (fun d => if d = ctx.dayKey then st.signalsPerDay ctx.dayKey + 1
          else st.signalsPerDay d) :=
  ⟨rfl, rfl, rfl⟩

/-- Shape of an admitted signal relative to the post-filter candidate. -/
def RestShape (ctx : PushCtx) (s2 s' : Signal) : Prop :=
  (s2.stop = none ∧ s' = applySizing ctx s2) ∨
  (∃ stopv, s2.stop = some stopv ∧
    0 < riskOf s2.direction s2.price stopv ∧
    s' = applySizing ctx (applyTargets s2.direction s2.price
      (riskOf s2.direction s2.price stopv) ctx.atr ctx.tierOne s2))

theorem pushSignalRest_cases (ctx : PushCtx) (barIndex : ℤ) (s2 : Signal)
    (st : EngineState) :
    pushSignalRest ctx barIndex s2 st = st ∨
    (st.signalsPerBar barIndex < MAX_SIGNALS_PER_BAR ∧
     st.signalsPerDay ctx.dayKey < MAX_TRADES_PER_DAY ∧
     ∃ s', RestShape ctx s2 s' ∧
       (pushSignalRest ctx barIndex s2 st).admissions
         = st.admissions ++ [⟨barIndex, ctx.dayKey, s'⟩] ∧
       (pushSignalRest ctx barIndex s2 st).signalsPerBar
         = (fun b => if b = barIndex then st.signalsPerBar barIndex + 1
             else st.signalsPerBar b) ∧
       (pushSignalRest ctx barIndex s2 st).signalsPerDay
         = (fun d => if d = ctx.dayKey then st.signalsPerDay ctx.dayKey + 1
             else st.signalsPerDay d)) := by
  unfold pushSignalRest
  dsimp only
  by_cases h1 : ctx.enforceSessionOpenFilter ∧ ctx.sessionOpenReject
  · rw [if_pos h1]
    exact Or.inl rfl
  rw [if_neg h1]
  by_cases h2 : ctx.biasFreeze = true
  · rw [if_pos h2]
    exact Or.inl rfl
  rw [if_neg h2]
  by_cases h3 : ∃ lb ∈ st.lastSignalBar, barIndex - lb < GLOBAL_COOLDOWN
  · rw [if_pos h3]
    exact Or.inl rfl
  rw [if_neg h3]
  by_cases h4 : st.signalsPerBar barIndex ≥ MAX_SIGNALS_PER_BAR
  · rw [if_pos h4]
    exact Or.inl rfl
  rw [if_neg h4]
  by_cases h5 : ctx.disabled = true
  · rw [if_pos h5]
    exact Or.inl rfl
  rw [if_neg h5]
  by_cases h6 : ∃ li ∈ st.lastSignalIndex (s2.setup.getD "default"),
      barIndex - li < SETUP_COOLDOWN
  · rw [if_pos h6]
    exact Or.inl rfl
  rw [if_neg h6]
  have hbar : st.signalsPerBar barIndex < MAX_SIGNALS_PER_BAR :=
    Nat.lt_of_not_le h4
  cases hstop : s2.stop with
  | none =>
    simp only [pushSignalRisk]
    rcases pushSignalTail_cases ctx barIndex (s2.setup.getD "default") s2 st
      with hteq | ⟨hdaily, hteq⟩
    · exact Or.inl hteq
    · refine Or.inr ⟨hbar, hdaily, applySizing ctx s2,
        Or.inl ⟨hstop, rfl⟩, ?_⟩
      rw [hteq]
      exact admitSignal_parts ctx barIndex _ ctx.priority (¬ctx.tierOne) s2 st
  | some stopv =>
    simp only [pushSignalRisk]
    by_cases g1 : riskOf s2.direction s2.price stopv ≤ 0
    · rw [if_pos g1]
      exact Or.inl rfl
    rw [if_neg g1]
    by_cases g2 : ¬ctx.tierOne ∧ ctx.atr < |s2.price| * 0.0003
    · rw [if_pos g2]
      exact Or.inl rfl
    rw [if_neg g2]
    by_cases g3 : riskOf s2.direction s2.price stopv <
        max (max (|s2.price| * 0.000004) 0.00001)
          (if ctx.atr > 0 then min (ctx.atr * 0.02) (|s2.price| * 0.0006) else 0)
    · rw [if_pos g3]
      exact Or.inl rfl
    rw [if_neg g3]
    by_cases g4 : ctx.atr > 0 ∧ riskOf s2.direction s2.price stopv > ctx.atr * 4
    · rw [if_pos g4]
      exact Or.inl rfl
    rw [if_neg g4]
    by_cases g5 : ∃ cap ∈ ctx.riskCap,
        cap ≠ 0 ∧ ctx.atr > 0 ∧ riskOf s2.direction s2.price stopv > ctx.atr * cap
    · rw [if_pos g5]
      exact Or.inl rfl
    rw [if_neg g5]
    rcases pushSignalTail_cases ctx barIndex (s2.setup.getD "default")
        (applyTargets s2.direction s2.price
          (riskOf s2.direction s2.price stopv) ctx.atr ctx.tierOne s2) st
        with hteq | ⟨hdaily, hteq⟩
    · exact Or.inl hteq
    · refine Or.inr ⟨hbar, hdaily,
        applySizing ctx (applyTargets s2.direction s2.price
          (riskOf s2.direction s2.price stopv) ctx.atr ctx.tierOne s2),
        Or.inr ⟨stopv, hstop, lt_of_not_le g1, rfl⟩, ?_⟩
      rw [hteq]
      exact admitSignal_parts ctx barIndex (s2.setup.getD "default")
        ctx.priority (¬ctx.tierOne)
        (applyTargets s2.direction s2.price
          (riskOf s2.direction s2.price stopv) ctx.atr ctx.tierOne s2) st

/-- What is known about an admitted signal `s'` in terms of the submitted
candidate `s` (see `RestShape`; `s2` is the candidate after the
session/bias defaulting and optional filter-multiplier stages, which leave
price, direction, stop and targets untouched). -/
def AdmittedShape (ctx : PushCtx) (s s' : Signal) : Prop :=
  ∃ s2, ((s2 = withDefaults ctx s) ∨
      (∃ m, ctx.filterOutcome = some m ∧
        s2 = applyFilterMult m (withDefaults ctx s))) ∧
    RestShape ctx s2 s'

/-- The complete case analysis of one `pushSignal` call: either some guard
failed and the state is unchanged, or the per-bar and per-day counters were
strictly below their caps and the state received exactly one admission (at
this bar index and day key) with the counters bumped at that key only. -/
theorem pushSignal_cases (ctx : PushCtx) (s : Signal) (barIndex : ℤ)
    (st : EngineState) :
    pushSignal ctx s barIndex st = st ∨
    (st.signalsPerBar barIndex < MAX_SIGNALS_PER_BAR ∧
     st.signalsPerDay ctx.dayKey < MAX_TRADES_PER_DAY ∧
     ∃ s', AdmittedShape ctx s s' ∧
       (pushSignal ctx s barIndex st).admissions
         = st.admissions ++ [⟨barIndex, ctx.dayKey, s'⟩] ∧
       (pushSignal ctx s barIndex st).signalsPerBar
         = (fun b => if b = barIndex then st.signalsPerBar barIndex + 1
             else st.signalsPerBar b) ∧
       (pushSignal ctx s barIndex st).signalsPerDay
         = (fun d => if d = ctx.dayKey then st.signalsPerDay ctx.dayKey + 1
             else st.signalsPerDay d)) := by
  unfold pushSignal
  dsimp only
  by_cases hsetup : (withDefaults ctx s).setup.getD "" ≠ ""
  · rw [if_pos hsetup]
    cases hf : ctx.filterOutcome with
    | none => exact Or.inl rfl
    | some m =>
      rcases pushSignalRest_cases ctx barIndex
          (applyFilterMult m (withDefaults ctx s)) st with h | ⟨hb, hd, s', hsh, hrest⟩
      · exact Or.inl h
      · exact Or.inr ⟨hb, hd, s', ⟨_, Or.inr ⟨m, hf, rfl⟩, hsh⟩, hrest⟩
  · rw [if_neg hsetup]
    rcases pushSignalRest_cases ctx barIndex (withDefaults ctx s) st
      with h | ⟨hb, hd, s', hsh, hrest⟩
    · exact Or.inl h
    · exact Or.inr ⟨hb, hd, s', ⟨_, Or.inl rfl, hsh⟩, hrest⟩
theorem admittedShape_core (ctx : PushCtx) (s s' : Signal)
    (h : AdmittedShape ctx s s') :
    s'.time = s.time ∧ s'.price = s.price ∧ s'.direction = s.direction ∧
    s'.stop = s.stop := by
  obtain ⟨s2, hs2, hrest⟩ := h
  have h2 : s2.time = s.time ∧ s2.price = s.price ∧
      s2.direction = s.direction ∧ s2.stop = s.stop := by
    rcases hs2 with rfl | ⟨m, -, rfl⟩
    · obtain ⟨a, b, c, d, -⟩ := withDefaults_core ctx s
      exact ⟨a, b, c, d⟩
    · obtain ⟨a, b, c, d, -⟩ := applyFilterMult_core m (withDefaults ctx s)
      obtain ⟨a', b', c', d', -⟩ := withDefaults_core ctx s
      exact ⟨a.trans a', b.trans b', c.trans c', d.trans d'⟩
  rcases hrest with ⟨-, rfl⟩ | ⟨stopv, -, -, rfl⟩
  · obtain ⟨a, b, c, d, -⟩ := applySizing_core ctx s2
    exact ⟨a.trans h2.1, b.trans h2.2.1, c.trans h2.2.2.1, d.trans h2.2.2.2⟩
  · obtain ⟨a, b, c, d, -⟩ := applySizing_core ctx
      (applyTargets s2.direction s2.price
        (riskOf s2.direction s2.price stopv) ctx.atr ctx.tierOne s2)
    obtain ⟨a', b', c', d'⟩ := applyTargets_core s2.direction s2.price
      (riskOf s2.direction s2.price stopv) ctx.atr ctx.tierOne s2
    exact ⟨(a.trans a').trans h2.1, (b.trans b').trans h2.2.1,
      (c.trans c').trans h2.2.2.1, (d.trans d').trans h2.2.2.2⟩

theorem admittedShape_risk (ctx : PushCtx) (s s' : Signal)
    (h : AdmittedShape ctx s s') (stopv : ℚ) (hstop : s.stop = some stopv) :
    0 < riskOf s.direction s.price stopv := by
  obtain ⟨s2, hs2, hrest⟩ := h
  have h2 : s2.price = s.price ∧ s2.direction = s.direction ∧
      s2.stop = s.stop := by
    rcases hs2 with rfl | ⟨m, -, rfl⟩
    · obtain ⟨-, b, c, d, -⟩ := withDefaults_core ctx s
      exact ⟨b, c, d⟩
    · obtain ⟨-, b, c, d, -⟩ := applyFilterMult_core m (withDefaults ctx s)
      obtain ⟨-, b', c', d', -⟩ := withDefaults_core ctx s
      exact ⟨b.trans b', c.trans c', d.trans d'⟩
  rcases hrest with ⟨hnone, -⟩ | ⟨stopv', hsome, hrisk, -⟩
  · rw [h2.2.2, hstop] at hnone
    cases hnone
  · rw [h2.2.2, hstop] at hsome
    injection hsome with he
    subst he
    rw [h2.1, h2.2.1] at hrisk
    exact hrisk

theorem runEngine_preserves (P : EngineState → Prop) (Q : Submission → Prop)
    (hstep : ∀ sub, Q sub → ∀ st, P st →
      P (pushSignal sub.ctx sub.signal sub.bar st)) :
    ∀ (subs : List Submission) (st : EngineState),
      (∀ sub ∈ subs, Q sub) → P st →
      P (subs.foldl (fun st sub => pushSignal sub.ctx sub.signal sub.bar st) st)
  | [], _, _, h => h
  | sub :: rest, st, hq, h =>
    runEngine_preserves P Q hstep rest _
      (fun x hx => hq x (List.mem_cons_of_mem _ hx))
      (hstep sub (hq sub (List.mem_cons_self _ _)) st h)

/-- C1: every signal admitted by `detectSignals` carries a defined stop on
the strictly adverse side of the entry — `stop < price` for a buy,
`stop > price` for a sell — so the risk `|price - stop|` is strictly
positive.  The hypothesis records the audited fact that every one of the
~50 rule blocks passes a numeric `stop` with its candidate; `pushSignal`
itself enforces `risk > 0` before admission. -/
theorem detectSignals_stop_adverse (subs : List Submission)
    (hstops : ∀ sub ∈ subs, sub.signal.stop.isSome) :
    ∀ sg ∈ (runEngine subs).admissions.map Admission.signal,
      ∃ stopv, sg.stop = some stopv ∧
        (sg.direction = .buy → stopv < sg.price) ∧
        (sg.direction = .sell → sg.price < stopv) := by
  have main := runEngine_preserves
    (fun st => ∀ sg ∈ st.admissions.map Admission.signal,
      ∃ stopv, sg.stop = some stopv ∧
        (sg.direction = .buy → stopv < sg.price) ∧
        (sg.direction = .sell → sg.price < stopv))
    (fun sub => sub.signal.stop.isSome)
    ?_ subs initialEngineState hstops ?_
  · exact main
  · intro sub hq st hP
    rcases pushSignal_cases sub.ctx sub.signal sub.bar st with heq | ⟨-, -, s', hshape, hadm, -⟩
    · rw [heq]
      exact hP
    · rw [hadm]
      intro sg hsg
      rw [List.map_append, List.mem_append] at hsg
      rcases hsg with hsg | hsg
      · exact hP sg hsg
      · simp only [List.map_cons, List.map_nil, List.mem_singleton] at hsg
        subst hsg
        obtain ⟨stopv, hstop⟩ := Option.isSome_iff_exists.mp hq
        obtain ⟨-, hprice, hdir, hstop'⟩ := admittedShape_core _ _ _ hshape
        have hrisk := admittedShape_risk _ _ _ hshape stopv hstop
        refine ⟨stopv, hstop' ▸ hstop, ?_, ?_⟩
        · intro hbuy
          rw [hprice]
          have : sub.signal.direction = .buy := hdir ▸ hbuy
          rw [this] at hrisk
          unfold riskOf at hrisk
          dsimp only at hrisk
          linarith
        · intro hsell
          rw [hprice]
          have : sub.signal.direction = .sell := hdir ▸ hsell
          rw [this] at hrisk
          unfold riskOf at hrisk
          dsimp only at hrisk
          linarith
  · intro sg hsg
    simp [initialEngineState] at hsg

/-- A concrete context for witnesses: no external filter interference. -/
def wCtx : PushCtx :=
  ⟨"London", .Bullish, true, false, true, true, some 1, false, false, false,
    1, 0, true, false, false, none, 5, some true, false⟩

/-- A concrete buy candidate at price 100 with stop 99. -/
def wSignal : Signal :=
  { time := 0, price := 100, direction := .buy, basis := "w",
    setup := some "CHoCH + FVG + OTE", stop := some 99 }

def wS2 : Signal :=
  { wSignal with
    session := some "London", bias := some .Bullish,
    sizeMultiplier := some 1 }

/-- The candidate after target synthesis (TP1 101.5, TP2 103, TP3 104.5,
TP4 106). -/
def wS3 : Signal :=
  { wS2 with
    tp1 := some (203/2), tp2 := some 103, tp3 := some (209/2),
    tp4 := some 106 }

/-- The signal the engine admits for the witness submission (after
sizing). -/
def sWit : Signal := { wS3 with sizeMultiplier := some (3/2) }

theorem engineWitness_eval :
    (runEngine [⟨wCtx, wSignal, 10⟩]).admissions.map Admission.signal
      = [sWit] := by
  have h2 : pushSignal wCtx wSignal 10 initialEngineState =
      pushSignalRest wCtx 10 wS2 initialEngineState := by
    norm_num +decide [pushSignal, withDefaults, applyFilterMult, wCtx,
      wSignal, wS2]
  have h3 : pushSignalRest wCtx 10 wS2 initialEngineState =
      pushSignalRisk wCtx 10 "CHoCH + FVG + OTE" (some 99) wS2
        initialEngineState := by
    norm_num +decide [pushSignalRest, wCtx, wS2, wSignal,
      initialEngineState, GLOBAL_COOLDOWN, SETUP_COOLDOWN,
      MAX_SIGNALS_PER_BAR]
  have h4 : pushSignalRisk wCtx 10 "CHoCH + FVG + OTE" (some 99) wS2
      initialEngineState =
      pushSignalTail wCtx 10 "CHoCH + FVG + OTE" wS3 initialEngineState := by
    norm_num +decide [pushSignalRisk, riskOf, applyTargets, fillMissingTp1,
      fillMissingTp2, fillMissingTp3, fillMissingTp4, dirOff, jsFalsyQ,
      RR_TP1, RR_TP2, RR_TP3, RR_TP4, MIN_R_MULTIPLE, wCtx, wS2, wS3,
      wSignal, abs_of_nonneg]
  have h5 : pushSignalTail wCtx 10 "CHoCH + FVG + OTE" wS3
      initialEngineState =
      admitSignal wCtx 10 "CHoCH + FVG + OTE" 5 false wS3
        initialEngineState := by
    norm_num +decide [pushSignalTail, wCtx, wS3, wS2, wSignal,
      initialEngineState, MAX_TRADES_PER_DAY]
  have h6 : (admitSignal wCtx 10 "CHoCH + FVG + OTE" 5 false wS3
      initialEngineState).admissions.map Admission.signal = [sWit] := by
    norm_num +decide [admitSignal, applySizing, wCtx, wS3, wS2, wSignal,
      sWit, initialEngineState, abs_of_nonneg]
  show (pushSignal wCtx wSignal 10 initialEngineState).admissions.map
    Admission.signal = [sWit]
  rw [h2, h3, h4, h5, h6]

/-- C1 witness: the theorem applied to the one signal the engine admits
for a concrete single-submission run, its call-site hypothesis (every
candidate carries a stop) discharged by evaluation. -/
theorem detectSignals_stop_adverse_witness :
    ∃ stopv, sWit.stop = some stopv ∧
      (sWit.direction = .buy → stopv < sWit.price) ∧
      (sWit.direction = .sell → sWit.price < stopv) :=
  detectSignals_stop_adverse [⟨wCtx, wSignal, 10⟩]
    (by intro sub hsub; rw [List.mem_singleton] at hsub; subst hsub; rfl)
    sWit (by rw [engineWitness_eval]; exact List.mem_singleton_self _)

theorem length_filter_map_eq {α β : Type} (f : α → β) (p : β → Bool) :
    ∀ l : List α, ((l.map f).filter p).length
      = (l.filter (fun x => p (f x))).length
  | [] => rfl
  | x :: xs => by
    simp only [List.map_cons, List.filter_cons]
    cases hpx : p (f x) <;>
      simp [length_filter_map_eq f p xs]

/-- C2: over any run of the admission engine, at most one signal is
admitted per bar index, and — when each submission's day key is the UTC
calendar day of its candidate's timestamp, as `detectSignals` computes it
from `candles[barIndex].t` (every rule block stamps `time: candle.t`) — at
most `MAX_TRADES_PER_DAY = 12` admitted signals carry timestamps of the
same UTC calendar day. -/
theorem detectSignals_caps (subs : List Submission)
    (hday : ∀ sub ∈ subs, sub.ctx.dayKey = utcDayNumber sub.signal.time) :
    (∀ b, ((runEngine subs).admissions.filter
        (fun a => a.bar = b)).length ≤ MAX_SIGNALS_PER_BAR) ∧
    (∀ d, (((runEngine subs).admissions.map Admission.signal).filter
        (fun sg => utcDayNumber sg.time = d)).length ≤ MAX_TRADES_PER_DAY) := by
  unfold runEngine
  have main := runEngine_preserves
    (fun st =>
      (∀ b, st.signalsPerBar b
          = (st.admissions.filter (fun a => a.bar = b)).length ∧
        st.signalsPerBar b ≤ MAX_SIGNALS_PER_BAR) ∧
      (∀ d, st.signalsPerDay d
          = (st.admissions.filter (fun a => a.dayKey = d)).length ∧
        st.signalsPerDay d ≤ MAX_TRADES_PER_DAY) ∧
      (∀ a ∈ st.admissions, a.dayKey = utcDayNumber a.signal.time))
    (fun sub => sub.ctx.dayKey = utcDayNumber sub.signal.time)
    ?_ subs initialEngineState hday ?_
  · obtain ⟨hbar, hdaykey, htime⟩ := main
    constructor
    · intro b
      obtain ⟨heq, hle⟩ := hbar b
      omega
    · intro d
      rw [length_filter_map_eq]
      have hcong : (List.foldl (fun st sub =>
            pushSignal sub.ctx sub.signal sub.bar st)
            initialEngineState subs).admissions.filter
            (fun a => decide (utcDayNumber a.signal.time = d))
          = (List.foldl (fun st sub =>
            pushSignal sub.ctx sub.signal sub.bar st)
            initialEngineState subs).admissions.filter
            (fun a => a.dayKey = d) := by
        apply List.filter_congr
        intro a ha
        rw [htime a ha]
      rw [hcong]
      obtain ⟨heq, hle⟩ := hdaykey d
      omega
  · intro sub hq st hP
    obtain ⟨hbar, hdaykey, htime⟩ := hP
    rcases pushSignal_cases sub.ctx sub.signal sub.bar st
      with heq | ⟨hblt, hdlt, s', hshape, hadm, hbarfn, hdayfn⟩
    · rw [heq]
      exact ⟨hbar, hdaykey, htime⟩
    · refine ⟨?_, ?_, ?_⟩
      · intro b
        have hfn := congrFun hbarfn b
        rw [hfn, hadm, List.filter_append, List.length_append]
        simp only [List.filter_cons, List.filter_nil]
        by_cases hb : b = sub.bar
        · subst hb
          rw [if_pos rfl, if_pos (by simp)]
          refine ⟨?_, ?_⟩
          · rw [(hbar sub.bar).1]
            rfl
          · have hlt := hblt
            omega
        · rw [if_neg hb, if_neg (by simpa using fun h => hb h.symm)]
          simp only [List.length_nil, Nat.add_zero]
          exact hbar b
      · intro d
        have hfn := congrFun hdayfn d
        rw [hfn, hadm, List.filter_append, List.length_append]
        simp only [List.filter_cons, List.filter_nil]
        by_cases hd : d = sub.ctx.dayKey
        · subst hd
          rw [if_pos rfl, if_pos (by simp)]
          refine ⟨?_, ?_⟩
          · rw [(hdaykey sub.ctx.dayKey).1]
            rfl
          · have hlt := hdlt
            omega
        · rw [if_neg hd, if_neg (by simpa using fun h => hd h.symm)]
          simp only [List.length_nil, Nat.add_zero]
          exact hdaykey d
      · rw [hadm]
        intro a ha
        rw [List.mem_append, List.mem_singleton] at ha
        rcases ha with ha | ha
        · exact htime a ha
        · subst ha
          obtain ⟨htimeEq, -, -, -⟩ := admittedShape_core _ _ _ hshape
          simp only [htimeEq]
          exact hq
  · refine ⟨fun b => ⟨rfl, by simp [initialEngineState, MAX_SIGNALS_PER_BAR]⟩,
      fun d => ⟨rfl, by simp [initialEngineState, MAX_TRADES_PER_DAY]⟩,
      fun a ha => by simp [initialEngineState] at ha⟩

/-- C2 witness: the per-bar cap applied to a concrete single-submission
run, the day-key hypothesis discharged by evaluation. -/
theorem detectSignals_caps_witness :
    ((runEngine [⟨wCtx, wSignal, 10⟩]).admissions.filter
      (fun a => a.bar = 10)).length ≤ MAX_SIGNALS_PER_BAR :=
  (detectSignals_caps [⟨wCtx, wSignal, 10⟩]
    (by intro sub hsub; rw [List.mem_singleton] at hsub; subst hsub; decide)).1 10

theorem rewardOf_dirOff (dir : Dir) (price x : ℚ) :
    rewardOf dir price (dirOff dir price x) = x := by
  cases dir <;> simp [rewardOf, dirOff]

theorem abs_dirOff_sub (dir : Dir) (price x : ℚ) :
    |dirOff dir price x - price| = |x| := by
  cases dir with
  | buy => simp [dirOff]
  | sell =>
    simp only [dirOff]
    rw [show price - x - price = -x by ring, abs_neg]

theorem fills_tp1 (v1 v2 v3 v4 : ℚ) (s : Signal) :
    (fillMissingTp4 v4 (fillMissingTp3 v3 (fillMissingTp2 v2
      (fillMissingTp1 v1 s)))).tp1
    = if jsFalsyQ s.tp1 then some v1 else s.tp1 := by
  simp only [fillMissingTp4_tp1, fillMissingTp3_tp1, fillMissingTp2_tp1,
    fillMissingTp1_tp1]

theorem fills_tp2 (v1 v2 v3 v4 : ℚ) (s : Signal) :
    (fillMissingTp4 v4 (fillMissingTp3 v3 (fillMissingTp2 v2
      (fillMissingTp1 v1 s)))).tp2
    = if jsFalsyQ s.tp2 then some v2 else s.tp2 := by
  simp only [fillMissingTp4_tp2, fillMissingTp3_tp2, fillMissingTp2_tp2,
    fillMissingTp1_tp2]

theorem fills_tp3 (v1 v2 v3 v4 : ℚ) (s : Signal) :
    (fillMissingTp4 v4 (fillMissingTp3 v3 (fillMissingTp2 v2
      (fillMissingTp1 v1 s)))).tp3
    = if jsFalsyQ s.tp3 then some v3 else s.tp3 := by
  simp only [fillMissingTp4_tp3, fillMissingTp3_tp3, fillMissingTp2_tp3,
    fillMissingTp1_tp3]

theorem fills_tp4 (v1 v2 v3 v4 : ℚ) (s : Signal) :
    (fillMissingTp4 v4 (fillMissingTp3 v3 (fillMissingTp2 v2
      (fillMissingTp1 v1 s)))).tp4
    = if jsFalsyQ s.tp4 then some v4 else s.tp4 := by
  simp only [fillMissingTp4_tp4, fillMissingTp3_tp4, fillMissingTp2_tp4,
    fillMissingTp1_tp4]

theorem rescale_tp1 (w2 w3 w4 : ℚ) (t : Signal) :
    (fillMissingTp4 w4 (fillMissingTp3 w3 (fillMissingTp2 w2 t))).tp1
      = t.tp1 := by
  simp only [fillMissingTp4_tp1, fillMissingTp3_tp1, fillMissingTp2_tp1]

theorem rescale_tp2 (w2 w3 w4 : ℚ) (t : Signal) :
    (fillMissingTp4 w4 (fillMissingTp3 w3 (fillMissingTp2 w2 t))).tp2
      = if jsFalsyQ t.tp2 then some w2 else t.tp2 := by
  simp only [fillMissingTp4_tp2, fillMissingTp3_tp2, fillMissingTp2_tp2]

theorem rescale_tp3 (w2 w3 w4 : ℚ) (t : Signal) :
    (fillMissingTp4 w4 (fillMissingTp3 w3 (fillMissingTp2 w2 t))).tp3
      = if jsFalsyQ t.tp3 then some w3 else t.tp3 := by
  simp only [fillMissingTp4_tp3, fillMissingTp3_tp3, fillMissingTp2_tp3]

theorem rescale_tp4 (w2 w3 w4 : ℚ) (t : Signal) :
    (fillMissingTp4 w4 (fillMissingTp3 w3 (fillMissingTp2 w2 t))).tp4
      = if jsFalsyQ t.tp4 then some w4 else t.tp4 := by
  simp only [fillMissingTp4_tp4, fillMissingTp3_tp4, fillMissingTp2_tp4]

theorem tp1Mult_ge (tierOne : Bool) :
    (1.5 : ℚ) ≤ (if tierOne then RR_TP1 else max 2 RR_TP1) := by
  split_ifs
  · norm_num [RR_TP1]
  · exact le_trans (by norm_num) (le_max_left _ _)

theorem tp2Mult_pos (tierOne : Bool) :
    (0 : ℚ) < (if tierOne then RR_TP2
      else max RR_TP2 ((if tierOne then RR_TP1 else max 2 RR_TP1) + 1)) := by
  split_ifs
  · norm_num [RR_TP2]
  · exact lt_of_lt_of_le (by norm_num [RR_TP2]) (le_max_left _ _)

theorem tp3Mult_pos (tierOne : Bool) :
    (0 : ℚ) < (if tierOne then RR_TP3
      else max RR_TP3 ((if tierOne then RR_TP2
        else max RR_TP2 ((if tierOne then RR_TP1 else max 2 RR_TP1) + 1))
        + 1.5)) := by
  split_ifs
  · norm_num [RR_TP3]
  · exact lt_of_lt_of_le (by norm_num [RR_TP3]) (le_max_left _ _)

theorem tp4Mult_pos (tierOne : Bool) :
    (0 : ℚ) < (if tierOne then RR_TP4
      else max RR_TP4 ((if tierOne then RR_TP3
        else max RR_TP3 ((if tierOne then RR_TP2
          else max RR_TP2 ((if tierOne then RR_TP1 else max 2 RR_TP1) + 1))
          + 1.5)) + 1.5)) := by
  split_ifs
  · norm_num [RR_TP4]
  · exact lt_of_lt_of_le (by norm_num [RR_TP4]) (le_max_left _ _)

/-- The target-synthesis guarantees of `applyTargets` for every candidate
shape that the rule blocks of `detectSignals` produce (targets either
absent or at exactly 1R / 2R): all four targets come out defined, the TP1
reward is at least `MIN_R_MULTIPLE` times the risk, and every other target
lies strictly beyond the entry in the profit direction. -/
theorem applyTargets_props (dir : Dir) (price risk atr : ℚ) (tierOne : Bool)
    (s : Signal) (hrisk : 0 < risk)
    (h1 : s.tp1 = none ∨ s.tp1 = some (dirOff dir price risk))
    (h2 : s.tp2 = none ∨ s.tp2 = some (dirOff dir price (2 * risk)))
    (h3 : s.tp3 = none) (h4 : s.tp4 = none) :
    (∃ v, (applyTargets dir price risk atr tierOne s).tp1 = some v ∧
      MIN_R_MULTIPLE * risk ≤ rewardOf dir price v) ∧
    (∃ v, (applyTargets dir price risk atr tierOne s).tp2 = some v ∧
      0 < rewardOf dir price v) ∧
    (∃ v, (applyTargets dir price risk atr tierOne s).tp3 = some v ∧
      0 < rewardOf dir price v) ∧
    (∃ v, (applyTargets dir price risk atr tierOne s).tp4 = some v ∧
      0 < rewardOf dir price v) := by
  have hMINpos : (0 : ℚ) < MIN_R_MULTIPLE := by norm_num [MIN_R_MULTIPLE]
  have hval2 : ∀ v, s.tp2 = some v → 0 < rewardOf dir price v := by
    intro v hv
    rcases h2 with hn | hs
    · rw [hn] at hv
      cases hv
    · rw [hs] at hv
      injection hv with hv'
      subst hv'
      rw [rewardOf_dirOff]
      nlinarith
  have hval3 : ∀ v, s.tp3 = some v → 0 < rewardOf dir price v := by
    intro v hv
    rw [h3] at hv
    cases hv
  have hval4 : ∀ v, s.tp4 = some v → 0 < rewardOf dir price v := by
    intro v hv
    rw [h4] at hv
    cases hv
  have genericVal : ∀ (o : Option ℚ) (w : ℚ),
      (∀ v, o = some v → 0 < rewardOf dir price v) →
      0 < rewardOf dir price w →
      ∀ v, (if jsFalsyQ o then some w else o) = some v →
        0 < rewardOf dir price v := by
    intro o w ho hw v hv
    by_cases hjf : jsFalsyQ o = true
    · simp only [hjf, if_true] at hv
      injection hv with hv'
      subst hv'
      exact hw
    · simp only [hjf, if_false, Bool.false_eq_true] at hv
      exact ho v hv
  have genericEx : ∀ (o : Option ℚ) (w : ℚ),
      (∀ v, o = some v → 0 < rewardOf dir price v) →
      0 < rewardOf dir price w →
      ∃ v, (if jsFalsyQ o then some w else o) = some v ∧
        0 < rewardOf dir price v := by
    intro o w ho hw
    by_cases hjf : jsFalsyQ o = true
    · exact ⟨w, by simp [hjf], hw⟩
    · cases ho' : o with
      | none =>
        exact absurd (by rw [ho']; rfl) hjf
      | some v =>
        rw [ho'] at hjf
        exact ⟨v, by simp [hjf], ho v ho'⟩
  unfold applyTargets
  dsimp only
  generalize hoff1 : max (risk * (if tierOne then RR_TP1 else max 2 RR_TP1))
    (atr * 1.5) = off1
  generalize hoff2 : max (risk * (if tierOne then RR_TP2
    else max RR_TP2 ((if tierOne then RR_TP1 else max 2 RR_TP1) + 1)))
    (atr * 2) = off2
  generalize hoff3 : max (risk * (if tierOne then RR_TP3
    else max RR_TP3 ((if tierOne then RR_TP2
      else max RR_TP2 ((if tierOne then RR_TP1 else max 2 RR_TP1) + 1))
      + 1.5))) (atr * 3) = off3
  generalize hoff4 : max (risk * (if tierOne then RR_TP4
    else max RR_TP4 ((if tierOne then RR_TP3
      else max RR_TP3 ((if tierOne then RR_TP2
        else max RR_TP2 ((if tierOne then RR_TP1 else max 2 RR_TP1) + 1))
        + 1.5)) + 1.5))) (atr * 4) = off4
  have h1off : 1.5 * risk ≤ off1 := by
    rw [← hoff1]
    refine le_trans ?_ (le_max_left _ _)
    have hm := tp1Mult_ge tierOne
    nlinarith
  have h1offpos : (0 : ℚ) < off1 := lt_of_lt_of_le (by nlinarith) h1off
  have h2off : (0 : ℚ) < off2 := by
    rw [← hoff2]
    exact lt_of_lt_of_le (mul_pos hrisk (tp2Mult_pos tierOne)) (le_max_left _ _)
  have h3off : (0 : ℚ) < off3 := by
    rw [← hoff3]
    exact lt_of_lt_of_le (mul_pos hrisk (tp3Mult_pos tierOne)) (le_max_left _ _)
  have h4off : (0 : ℚ) < off4 := by
    rw [← hoff4]
    exact lt_of_lt_of_le (mul_pos hrisk (tp4Mult_pos tierOne)) (le_max_left _ _)
  generalize hS4 : fillMissingTp4 (dirOff dir price off4)
    (fillMissingTp3 (dirOff dir price off3)
      (fillMissingTp2 (dirOff dir price off2)
        (fillMissingTp1 (dirOff dir price off1) s))) = S4
  have hS41 : S4.tp1 = if jsFalsyQ s.tp1 then some (dirOff dir price off1)
      else s.tp1 := by
    rw [← hS4]
    exact fills_tp1 _ _ _ _ s
  have hS42 : S4.tp2 = if jsFalsyQ s.tp2 then some (dirOff dir price off2)
      else s.tp2 := by
    rw [← hS4]
    exact fills_tp2 _ _ _ _ s
  have hS43 : S4.tp3 = some (dirOff dir price off3) := by
    rw [← hS4, fills_tp3, if_pos (by rw [h3]; rfl)]
  have hS44 : S4.tp4 = some (dirOff dir price off4) := by
    rw [← hS4, fills_tp4, if_pos (by rw [h4]; rfl)]
  have hS42val : ∀ v, S4.tp2 = some v → 0 < rewardOf dir price v := by
    intro v hv
    rw [hS42] at hv
    exact genericVal s.tp2 (dirOff dir price off2) hval2
      (by rw [rewardOf_dirOff]; exact h2off) v hv
  have hS43val : ∀ v, S4.tp3 = some v → 0 < rewardOf dir price v := by
    intro v hv
    rw [hS43] at hv
    injection hv with hv'
    subst hv'
    rw [rewardOf_dirOff]
    exact h3off
  have hS44val : ∀ v, S4.tp4 = some v → 0 < rewardOf dir price v := by
    intro v hv
    rw [hS44] at hv
    injection hv with hv'
    subst hv'
    rw [rewardOf_dirOff]
    exact h4off
  by_cases hjf1 : jsFalsyQ s.tp1 = true
  · -- TP1 was missing (or zero): it is synthesized at `off1 >= 1.5R`,
    -- so the rescale branch is not taken.
    have hS41' : S4.tp1 = some (dirOff dir price off1) := by
      rw [hS41]
      simp [hjf1]
    have hcond : S4.tp1 ≠ none ∧ risk > 0 := ⟨by rw [hS41']; simp, hrisk⟩
    rw [if_pos hcond, hS41']
    have hnotlt : ¬(|(some (dirOff dir price off1)).getD 0 - price| / risk
        < MIN_R_MULTIPLE) := by
      simp only [Option.getD_some]
      rw [abs_dirOff_sub, abs_of_pos h1offpos]
      rw [not_lt, le_div_iff hrisk]
      norm_num [MIN_R_MULTIPLE]
      nlinarith
    rw [if_neg hnotlt]
    refine ⟨⟨dirOff dir price off1, hS41', ?_⟩, ?_, ?_, ?_⟩
    · rw [rewardOf_dirOff]
      norm_num [MIN_R_MULTIPLE]
      nlinarith
    · rw [hS42]
      exact genericEx s.tp2 (dirOff dir price off2) hval2
        (by rw [rewardOf_dirOff]; exact h2off)
    · exact ⟨dirOff dir price off3, hS43, by rw [rewardOf_dirOff]; exact h3off⟩
    · exact ⟨dirOff dir price off4, hS44, by rw [rewardOf_dirOff]; exact h4off⟩
  · -- TP1 was supplied at 1R: the realized ratio is 1 < 1.25 and the
    -- rescale branch fires.
    rcases h1 with h1n | h1s
    · exact absurd (by rw [h1n]; rfl) hjf1
    have hS41' : S4.tp1 = some (dirOff dir price risk) := by
      rw [hS41, h1s]
      rw [h1s] at hjf1
      simp [hjf1]
    have hcond : S4.tp1 ≠ none ∧ risk > 0 := ⟨by rw [hS41']; simp, hrisk⟩
    rw [if_pos hcond, hS41']
    have hlt : (|(some (dirOff dir price risk)).getD 0 - price| / risk
        < MIN_R_MULTIPLE) := by
      simp only [Option.getD_some]
      rw [abs_dirOff_sub, abs_of_pos hrisk, div_self hrisk.ne']
      norm_num [MIN_R_MULTIPLE]
    rw [if_pos hlt]
    rw [rescale_tp1, rescale_tp2, rescale_tp3, rescale_tp4]
    dsimp only
    refine ⟨⟨dirOff dir price (risk * MIN_R_MULTIPLE), rfl, ?_⟩, ?_, ?_, ?_⟩
    · rw [rewardOf_dirOff]
      nlinarith [hMINpos]
    · exact genericEx S4.tp2 (dirOff dir price (risk * MIN_R_MULTIPLE * 2))
        hS42val (by rw [rewardOf_dirOff]; nlinarith [hMINpos])
    · exact genericEx S4.tp3 (dirOff dir price (risk * MIN_R_MULTIPLE * 3))
        hS43val (by rw [rewardOf_dirOff]; nlinarith [hMINpos])
    · exact genericEx S4.tp4 (dirOff dir price (risk * MIN_R_MULTIPLE * 4))
        hS44val (by rw [rewardOf_dirOff]; nlinarith [hMINpos])

/-- The audited shape of every candidate the ~50 rule-block call sites of
`detectSignals` submit: a numeric stop; TP3/TP4 never supplied; TP1/TP2
either absent or at exactly one and two risk units beyond the entry
(`tp1: entry + risk, tp2: entry + risk * 2` for buys and the mirror for
sells, with `entry` the signal price and `risk` the entry-stop
distance). -/
def CandidateShape (s : Signal) : Prop :=
  ∃ stopv, s.stop = some stopv ∧ s.tp3 = none ∧ s.tp4 = none ∧
    (s.tp1 = none ∨ s.tp1 = some (dirOff s.direction s.price
      (riskOf s.direction s.price stopv))) ∧
    (s.tp2 = none ∨ s.tp2 = some (dirOff s.direction s.price
      (2 * riskOf s.direction s.price stopv)))

theorem stage_fields (ctx : PushCtx) (s s2 : Signal)
    (hs2 : s2 = withDefaults ctx s ∨
      ∃ m, ctx.filterOutcome = some m ∧
        s2 = applyFilterMult m (withDefaults ctx s)) :
    s2.price = s.price ∧ s2.direction = s.direction ∧ s2.stop = s.stop ∧
    s2.tp1 = s.tp1 ∧ s2.tp2 = s.tp2 ∧ s2.tp3 = s.tp3 ∧ s2.tp4 = s.tp4 := by
  rcases hs2 with rfl | ⟨m, -, rfl⟩
  · obtain ⟨-, b, c, d, -, e1, e2, e3, e4⟩ := withDefaults_core ctx s
    exact ⟨b, c, d, e1, e2, e3, e4⟩
  · obtain ⟨-, b, c, d, -, e1, e2, e3, e4⟩ :=
      applyFilterMult_core m (withDefaults ctx s)
    obtain ⟨-, b', c', d', -, f1, f2, f3, f4⟩ := withDefaults_core ctx s
    exact ⟨b.trans b', c.trans c', d.trans d', e1.trans f1, e2.trans f2,
      e3.trans f3, e4.trans f4⟩

/-- C10: every signal admitted by `detectSignals` has all four take-profit
levels defined, each strictly beyond the entry in the profit direction,
and the TP1 reward is at least `MIN_R_MULTIPLE = 1.25` times the risk.
The hypothesis records the audited call-site candidate shape
(`CandidateShape`). -/
theorem detectSignals_targets (subs : List Submission)
    (hshape : ∀ sub ∈ subs, CandidateShape sub.signal) :
    ∀ sg ∈ (runEngine subs).admissions.map Admission.signal,
      ∃ stopv t1 t2 t3 t4,
        sg.stop = some stopv ∧ sg.tp1 = some t1 ∧ sg.tp2 = some t2 ∧
        sg.tp3 = some t3 ∧ sg.tp4 = some t4 ∧
        0 < riskOf sg.direction sg.price stopv ∧
        MIN_R_MULTIPLE * riskOf sg.direction sg.price stopv
          ≤ rewardOf sg.direction sg.price t1 ∧
        0 < rewardOf sg.direction sg.price t2 ∧
        0 < rewardOf sg.direction sg.price t3 ∧
        0 < rewardOf sg.direction sg.price t4 := by
  have main := runEngine_preserves
    (fun st => ∀ sg ∈ st.admissions.map Admission.signal,
      ∃ stopv t1 t2 t3 t4,
        sg.stop = some stopv ∧ sg.tp1 = some t1 ∧ sg.tp2 = some t2 ∧
        sg.tp3 = some t3 ∧ sg.tp4 = some t4 ∧
        0 < riskOf sg.direction sg.price stopv ∧
        MIN_R_MULTIPLE * riskOf sg.direction sg.price stopv
          ≤ rewardOf sg.direction sg.price t1 ∧
        0 < rewardOf sg.direction sg.price t2 ∧
        0 < rewardOf sg.direction sg.price t3 ∧
        0 < rewardOf sg.direction sg.price t4)
    (fun sub => CandidateShape sub.signal)
    ?_ subs initialEngineState hshape ?_
  · exact main
  · intro sub hq st hP
    rcases pushSignal_cases sub.ctx sub.signal sub.bar st
      with heq | ⟨-, -, s', hshape', hadm, -⟩
    · rw [heq]
      exact hP
    · rw [hadm]
      intro sg hsg
      rw [List.map_append, List.mem_append] at hsg
      rcases hsg with hsg | hsg
      · exact hP sg hsg
      · simp only [List.map_cons, List.map_nil, List.mem_singleton] at hsg
        subst hsg
        obtain ⟨stopv, hstop, h3, h4, h1, h2⟩ := hq
        obtain ⟨s2, hs2, hrest⟩ := hshape'
        obtain ⟨hp, hd, hst, ht1, ht2, ht3, ht4⟩ := stage_fields _ _ _ hs2
        rcases hrest with ⟨hnone, -⟩ | ⟨stopv', hsome, hrisk, heq'⟩
        · rw [hst, hstop] at hnone
          cases hnone
        · rw [hst, hstop] at hsome
          injection hsome with hee
          subst hee
          -- the admitted signal's target facts via applyTargets_props
          have hprops := applyTargets_props s2.direction s2.price
            (riskOf s2.direction s2.price stopv) sub.ctx.atr sub.ctx.tierOne
            s2 (by rw [hp, hd] at hrisk ⊢; exact hrisk) ?_ ?_
            (by rw [ht3]; exact h3) (by rw [ht4]; exact h4)
          · obtain ⟨⟨t1, htp1, hr1⟩, ⟨t2, htp2, hr2⟩, ⟨t3, htp3, hr3⟩,
              ⟨t4, htp4, hr4⟩⟩ := hprops
            subst heq'
            obtain ⟨-, sp, sd, sst, s1, s2', s3, s4⟩ := applySizing_core
              sub.ctx (applyTargets s2.direction s2.price
                (riskOf s2.direction s2.price stopv) sub.ctx.atr
                sub.ctx.tierOne s2)
            obtain ⟨-, tp', td', tst'⟩ := applyTargets_core s2.direction
              s2.price (riskOf s2.direction s2.price stopv) sub.ctx.atr
              sub.ctx.tierOne s2
            refine ⟨stopv, t1, t2, t3, t4, ?_, ?_, ?_, ?_, ?_, ?_, ?_, ?_,
              ?_, ?_⟩
            · rw [sst, tst', hst, hstop]
            · rw [s1, htp1]
            · rw [s2', htp2]
            · rw [s3, htp3]
            · rw [s4, htp4]
            · rw [sp, sd, tp', td', hp, hd]
              rw [hp, hd] at hrisk
              exact hrisk
            · rw [sp, sd, tp', td']
              exact hr1
            · rw [sp, sd, tp', td']
              exact hr2
            · rw [sp, sd, tp', td']
              exact hr3
            · rw [sp, sd, tp', td']
              exact hr4
          · rw [ht1, hp, hd]
            exact h1
          · rw [ht2, hp, hd]
            exact h2
  · intro sg hsg
    simp [initialEngineState] at hsg

/-- C10 witness: the theorem applied to a concrete single-submission run;
the call-site-shape hypothesis is discharged by evaluation on the
concrete candidate (stop 99, no explicit targets). -/
theorem detectSignals_targets_witness :
    ∃ stopv t1 t2 t3 t4,
      sWit.stop = some stopv ∧ sWit.tp1 = some t1 ∧ sWit.tp2 = some t2 ∧
      sWit.tp3 = some t3 ∧ sWit.tp4 = some t4 ∧
      0 < riskOf sWit.direction sWit.price stopv ∧
      MIN_R_MULTIPLE * riskOf sWit.direction sWit.price stopv
        ≤ rewardOf sWit.direction sWit.price t1 ∧
      0 < rewardOf sWit.direction sWit.price t2 ∧
      0 < rewardOf sWit.direction sWit.price t3 ∧
      0 < rewardOf sWit.direction sWit.price t4 :=
  detectSignals_targets [⟨wCtx, wSignal, 10⟩]
    (by intro sub hsub; rw [List.mem_singleton] at hsub; subst hsub
        exact ⟨99, rfl, rfl, rfl, Or.inl rfl, Or.inl rfl⟩)
    sWit (by rw [engineWitness_eval]; exact List.mem_singleton_self _)

/-- A backtest/live trade record (`useAppStore.ts`). `entry`, `stop`,
`target` are required numbers in the TypeScript type; the remaining
fields are optional. -/
structure BacktestTrade where
  direction : Dir
  entry : ℚ
  stop : ℚ
  target : ℚ
  result : Option TradeResult := none
  pnl : Option ℚ := none
  exitTime : Option ℤ := none
  signalId : Option String := none
  initialStop : Option ℚ := none
  risk : Option ℚ := none
  breakevenTriggered : Option Bool := none
  takePartial : Option ℚ := none
  partialFraction : Option ℚ := none
  partialRealized : Option ℚ := none
  partialHit : Option Bool := none
  openTime : Option ℤ := none
  positionSize : Option ℚ := none
  manual : Option Bool := none
  status : Option TradeStatus := none
deriving Repr

/-- The fields `simulateTradeOutcome` returns
(`Pick<BacktestTrade, "result" | "pnl" | "exitTime" | "partialRealized"
| "partialHit">`); `{}` is all-`none`. -/
structure SimOutcome where
  result : Option TradeResult := none
  pnl : Option ℚ := none
  exitTime : Option ℤ := none
  partialRealized : Option ℚ := none
  partialHit : Option Bool := none
deriving DecidableEq, Repr

/-- The per-call constants of the `simulateTradeOutcome` loop. -/
structure SimParams where
  dir : Dir
  entry : ℚ
  target : ℚ
  takePartial : Option ℚ
  partialFraction : ℚ
  size : ℚ
deriving Repr

/-- `dir === "buy" ? candle.l <= stop : candle.h >= stop`. -/
def hitStopB (dir : Dir) (stop : ℚ) (candle : Candle) : Bool :=
  match dir with
  | .buy => decide (candle.l ≤ stop)
  | .sell => decide (stop ≤ candle.h)

/-- `dir === "buy" ? candle.h >= target : candle.l <= target`. -/
def hitTargetB (dir : Dir) (target : ℚ) (candle : Candle) : Bool :=
  match dir with
  | .buy => decide (target ≤ candle.h)
  | .sell => decide (candle.l ≤ target)

/-- `takePartial != null && !partialHit && hitPartial` where
`hitPartial = dir === "buy" ? candle.h >= takePartial : candle.l <=
takePartial`. -/
def partialFires (p : SimParams) (partialHit : Bool) (candle : Candle) :
    Bool :=
  match p.takePartial with
  | some tp => !partialHit &&
      (match p.dir with
       | .buy => decide (tp ≤ candle.h)
       | .sell => decide (candle.l ≤ tp))
  | none => false

/-- `dir === "buy" ? takePartial - entry : entry - takePartial`. -/
def partialMove (p : SimParams) (tp : ℚ) : ℚ :=
  match p.dir with
  | .buy => tp - p.entry
  | .sell => p.entry - tp

/-- The `move` of the closing branch: signed distance from the entry to
the boundary that closed the trade (current stop on a loss, target on a
win). `breakeven` never arises in the simulator; it maps to `0`. -/
def simMove (dir : Dir) (entry target stop : ℚ) : TradeResult → ℚ
  | .win => match dir with | .buy => target - entry | .sell => entry - target
  | .loss => match dir with | .buy => stop - entry | .sell => entry - stop
  | .breakeven => 0

/-- The `result` computation of the closing branch: both boundaries
crossed resolves by `Math.abs(open - stop) <= Math.abs(open - target) ?
"loss" : "win"`; otherwise the crossed boundary decides. -/
def simDecide (p : SimParams) (stop : ℚ) (candle : Candle) : TradeResult :=
  if hitStopB p.dir stop candle ∧ hitTargetB p.dir p.target candle then
    if |candle.o - stop| ≤ |candle.o - p.target| then .loss else .win
  else if hitStopB p.dir stop candle then .loss
  else .win

/-- The `for (let i = start; i <= endIdx; i++)` loop of
`simulateTradeOutcome`, with the mutable state `(stop, partialRealized,
partialHit)` passed explicitly and the remaining bars as a list. A bar
that triggers a pending partial realizes it (stop moves to the entry)
and `continue`s; otherwise a bar crossing a boundary closes the trade:
both crossed resolves by `Math.abs(open - stop) <= Math.abs(open -
target) ? "loss" : "win"`, a single crossing decides directly. After
the bars, `return partialRealized ? {partialRealized, partialHit} :
{}`. -/
def simLoop (p : SimParams) : ℚ → ℚ → Bool → List Candle → SimOutcome
  | _, partialRealized, partialHit, [] =>
      if partialRealized = 0 then {}
      else { partialRealized := some partialRealized,
             partialHit := some partialHit }
  | stop, partialRealized, partialHit, candle :: rest =>
      if partialFires p partialHit candle then
        simLoop p p.entry
          (partialRealized +
            p.partialFraction * partialMove p (p.takePartial.getD 0) * p.size)
          true rest
      else if hitStopB p.dir stop candle = false ∧
          hitTargetB p.dir p.target candle = false then
        simLoop p stop partialRealized partialHit rest
      else
        { result := some (simDecide p stop candle),
          pnl := some (partialRealized +
            simMove p.dir p.entry p.target stop (simDecide p stop candle) *
              (if partialHit then 1 - p.partialFraction else 1) * p.size),
          exitTime := some candle.t,
          partialRealized := some partialRealized,
          partialHit := some partialHit }

/-- `simulateTradeOutcome(signal, base, candles, startIdx, endIdx)`:
finds the first bar at or after the signal time, starts at
`max(idx, startIdx)`, and runs the loop over `candles[start..endIdx]`
(the `stop == null || target == null` guard cannot fire since the
TypeScript type requires both). -/
def simulateTradeOutcome (signalTime : ℤ) (base : BacktestTrade)
    (candles : List Candle) (startIdx endIdx : ℕ) : SimOutcome :=
  match candles.findIdx? (fun c => decide (signalTime ≤ c.t)) with
  | none => {}
  | some idx =>
      simLoop
        { dir := base.direction, entry := base.entry, target := base.target,
          takePartial := base.takePartial,
          partialFraction := base.partialFraction.getD (1/2),
          size := base.positionSize.getD 1 }
        base.stop (base.partialRealized.getD 0) (base.partialHit.getD false)
        ((candles.take (endIdx + 1)).drop (max idx startIdx))

/-- `trade.status ?? (trade.result ? "closed" : "active")`: the status
the per-bar trade-resolution effect acts on. -/
def effStatus (t : BacktestTrade) : TradeStatus :=
  t.status.getD (if t.result.isSome then .closed else .active)

/-- The outcome check of the live resolver, identical in the manual and
final branches: the stop is tested first, the target only `else`-wise,
with no distance comparison. -/
def liveOutcome (dir : Dir) (stop target : ℚ) (latest : Candle) :
    Option TradeResult :=
  match dir with
  | .buy =>
      if latest.l ≤ stop then some .loss
      else if target ≤ latest.h then some .win
      else none
  | .sell =>
      if stop ≤ latest.h then some .loss
      else if latest.l ≤ target then some .win
      else none

/-- The manual-trade closing branch (`pnl = move * size`, no partial
terms). -/
def manualClose (trade : BacktestTrade) (latest : Candle) :
    Option BacktestTrade :=
  match liveOutcome trade.direction trade.stop trade.target latest with
  | none => none
  | some oc => some { trade with
      result := some oc,
      pnl := some (simMove trade.direction trade.entry trade.target
        trade.stop oc * trade.positionSize.getD 1),
      exitTime := some latest.t, status := some .closed }

/-- The pending-partial branch of the non-manual path: realize the
partial, move the stop to the entry, and return. -/
def liveAutoPartial (trade : BacktestTrade) (latest : Candle) :
    Option BacktestTrade :=
  match trade.takePartial with
  | some tp =>
      if trade.partialHit.getD false = false ∧
          (match trade.direction with
           | .buy => decide (tp ≤ latest.h)
           | .sell => decide (latest.l ≤ tp)) = true then
        some { trade with
          stop := trade.entry,
          breakevenTriggered := some true,
          partialRealized := some (trade.partialRealized.getD 0 +
            trade.partialFraction.getD (1/2) *
            (match trade.direction with
             | .buy => tp - trade.entry
             | .sell => trade.entry - tp) *
            trade.positionSize.getD 1),
          partialHit := some true }
      else none
  | none => none

/-- The breakeven branch: once price travels `1.5 × computedRisk` in the
profit direction, the stop moves to the entry. -/
def liveBreakeven (trade : BacktestTrade) (latest : Candle) :
    Option BacktestTrade :=
  let initialStop := trade.initialStop.getD trade.stop
  let computedRisk := trade.risk.getD |trade.entry - initialStop|
  if 0 < computedRisk ∧ trade.breakevenTriggered.getD false = false ∧
      (match trade.direction with
       | .buy => decide (trade.entry + computedRisk * (3/2) ≤ latest.h)
       | .sell =>
          decide (latest.l ≤ trade.entry - computedRisk * (3/2))) = true then
    some { trade with stop := trade.entry, breakevenTriggered := some true }
  else none

/-- The ATR trailing branch: after breakeven, ratchet the stop toward
the close by half an ATR, only when it moves by more than `1e-6`. -/
def liveTrail (trade : BacktestTrade) (latest : Candle) (latestAtr : ℚ) :
    Option BacktestTrade :=
  if trade.breakevenTriggered.getD false = true ∧ 0 < latestAtr then
    match trade.direction with
    | .buy =>
        if trade.stop + 1/1000000 <
            max trade.stop (latest.c - latestAtr * (1/2)) then
          some { trade with
            stop := max trade.stop (latest.c - latestAtr * (1/2)) }
        else none
    | .sell =>
        if min trade.stop (latest.c + latestAtr * (1/2)) <
            trade.stop - 1/1000000 then
          some { trade with
            stop := min trade.stop (latest.c + latestAtr * (1/2)) }
        else none
  else none

/-- The non-manual closing branch: stop-first outcome, with
`pnl = partialRealized + move * remainingFraction * size`. -/
def liveClose (trade : BacktestTrade) (latest : Candle) :
    Option BacktestTrade :=
  match liveOutcome trade.direction trade.stop trade.target latest with
  | none => none
  | some oc => some { trade with
      result := some oc,
      pnl := some (trade.partialRealized.getD 0 +
        simMove trade.direction trade.entry trade.target trade.stop oc *
        (if trade.partialHit.getD false then
          1 - trade.partialFraction.getD (1/2) else 1) *
        trade.positionSize.getD 1),
      exitTime := some latest.t, status := some .closed }

/-- The non-manual path: partial, breakeven, trailing, then close, each
branch returning if it fires. -/
def resolveAuto (trade : BacktestTrade) (latest : Candle)
    (latestAtr : ℚ) : Option BacktestTrade :=
  match liveAutoPartial trade latest with
  | some t' => some t'
  | none =>
      match liveBreakeven trade latest with
      | some t' => some t'
      | none =>
          match liveTrail trade latest latestAtr with
          | some t' => some t'
          | none => liveClose trade latest

/-- One step of the per-bar trade-resolution `useEffect` on one trade:
`none` models "no `updateTrade` call", `some t'` the merged update. A
planned manual trade fills when the bar spans the entry; a non-active,
non-planned trade is left alone; an active trade without `openTime`
gets it stamped; bars at or before `openTime` are skipped; then the
manual or automatic branch runs. -/
def resolveTradeStep (trade : BacktestTrade) (latest : Candle)
    (latestAtr : ℚ) : Option BacktestTrade :=
  match effStatus trade with
  | .planned =>
      if trade.manual.getD false = true then
        if latest.l ≤ trade.entry ∧ trade.entry ≤ latest.h then
          some { trade with
            status := some .active,
            openTime := some latest.t }
        else none
      else none
  | .active =>
      if trade.result.isSome then none
      else
        match trade.openTime with
        | none => some { trade with openTime := some latest.t }
        | some ot =>
            if latest.t ≤ ot then none
            else if trade.manual.getD false = true ∨
                trade.signalId = none then
              manualClose trade latest
            else resolveAuto trade latest latestAtr
  | _ => none

theorem partialFires_ph {p : SimParams} {ph : Bool} {candle : Candle}
    (h : partialFires p ph candle = true) : ph = false := by
  unfold partialFires at h
  cases htp : p.takePartial with
  | none => rw [htp] at h; cases h
  | some tp =>
      rw [htp] at h
      simp only [Bool.and_eq_true] at h
      rcases h with ⟨h1, -⟩
      simpa using h1

theorem simLoop_cons_hitPartial (p : SimParams) (stop pr : ℚ) (ph : Bool)
    (candle : Candle) (rest : List Candle)
    (h : partialFires p ph candle = true) :
    simLoop p stop pr ph (candle :: rest) =
      simLoop p p.entry
        (pr + p.partialFraction * partialMove p (p.takePartial.getD 0) * p.size)
        true rest := by
  simp only [simLoop]
  rw [if_pos h]

theorem simLoop_cons_skip (p : SimParams) (stop pr : ℚ) (ph : Bool)
    (candle : Candle) (rest : List Candle)
    (h : partialFires p ph candle = false)
    (h2 : hitStopB p.dir stop candle = false ∧
      hitTargetB p.dir p.target candle = false) :
    simLoop p stop pr ph (candle :: rest) = simLoop p stop pr ph rest := by
  simp only [simLoop]
  rw [if_neg (by simp [h]), if_pos h2]

theorem simLoop_cons_close (p : SimParams) (stop pr : ℚ) (ph : Bool)
    (candle : Candle) (rest : List Candle)
    (h : partialFires p ph candle = false)
    (h2 : ¬(hitStopB p.dir stop candle = false ∧
      hitTargetB p.dir p.target candle = false)) :
    simLoop p stop pr ph (candle :: rest) =
      { result := some (simDecide p stop candle),
        pnl := some (pr +
          simMove p.dir p.entry p.target stop (simDecide p stop candle) *
            (if ph then 1 - p.partialFraction else 1) * p.size),
        exitTime := some candle.t,
        partialRealized := some pr,
        partialHit := some ph } := by
  simp only [simLoop]
  rw [if_neg (by simp [h]), if_neg h2]

/-- C3: amended per-bar decision rule of the backtest simulator loop.
On a bar that does not trigger a pending partial exit: if the bar
crosses both the stop and the target the outcome is decided by
comparing the open's distance to each boundary — loss when the stop
distance is less than or equal to the target distance (so the stop wins
exact ties), win otherwise; a bar crossing only one boundary is decided
by that boundary. (A bar that triggers a pending partial exit decides
nothing: it realizes the partial, moves the stop to the entry, and
continues — see the counterexample — and the live resolver instead
gives the stop unconditional precedence.) -/
theorem simulateTradeOutcome_decision (p : SimParams) (stop pr : ℚ)
    (ph : Bool) (candle : Candle) (rest : List Candle)
    (hp : partialFires p ph candle = false) :
    (hitStopB p.dir stop candle = true ∧
        hitTargetB p.dir p.target candle = true →
      (simLoop p stop pr ph (candle :: rest)).result =
        some (if |candle.o - stop| ≤ |candle.o - p.target| then
          TradeResult.loss else TradeResult.win)) ∧
    (hitStopB p.dir stop candle = true ∧
        hitTargetB p.dir p.target candle = false →
      (simLoop p stop pr ph (candle :: rest)).result =
        some TradeResult.loss) ∧
    (hitStopB p.dir stop candle = false ∧
        hitTargetB p.dir p.target candle = true →
      (simLoop p stop pr ph (candle :: rest)).result =
        some TradeResult.win) := by
  refine ⟨?_, ?_, ?_⟩
  · rintro ⟨h1, h2⟩
    rw [simLoop_cons_close p stop pr ph candle rest hp (by simp [h1])]
    simp only [simDecide, h1, h2]
    rfl
  · rintro ⟨h1, h2⟩
    rw [simLoop_cons_close p stop pr ph candle rest hp (by simp [h1])]
    simp [simDecide, h1, h2]
  · rintro ⟨h1, h2⟩
    rw [simLoop_cons_close p stop pr ph candle rest hp (by simp [h2])]
    simp [simDecide, h1, h2]

/-- A buy trade at entry 10, stop 9, target 12, with a pending partial
at 11. -/
def cexTrade : BacktestTrade :=
  { direction := .buy, entry := 10, stop := 9, target := 12,
    takePartial := some 11 }

/-- A bar that crosses the stop (low 9), the target (high 12), and the
partial level. -/
def cexBar : Candle := ⟨1, 10, 12, 9, 10, 0⟩


/-- C3 counterexample: this bar crosses both the stop (open distance 1)
and the target (open distance 2), so the claim predicts a decided loss,
but `simulateTradeOutcome` only realizes the pending partial exit on it
and returns undecided (`result` absent, `partialHit` true). -/
theorem simulateTradeOutcome_decision_counterexample :
    hitStopB Dir.buy 9 cexBar = true ∧ hitTargetB Dir.buy 12 cexBar = true ∧
    (simulateTradeOutcome 0 cexTrade [cexBar] 0 0).result = none ∧
    (simulateTradeOutcome 0 cexTrade [cexBar] 0 0).partialHit = some true := by
  have hmain : simulateTradeOutcome 0 cexTrade [cexBar] 0 0 =
      simLoop ⟨.buy, 10, 12, some 11, 1/2, 1⟩ 9 0 false [cexBar] := rfl
  rw [hmain, simLoop_cons_hitPartial _ _ _ _ _ _ (by decide)]
  refine ⟨by decide, by decide, ?_, ?_⟩
  · simp [simLoop, apply_ite]
  · norm_num [simLoop, partialMove]

/-- C3 witness: the amended decision rule applied to a both-crossed bar
with no pending partial, whose open (11.5) is closer to the target (12)
than to the stop (9): the bar resolves as a win. -/
theorem simulateTradeOutcome_decision_witness :
    (simLoop ⟨.buy, 10, 12, none, 1/2, 1⟩ 9 0 false
      [⟨1, 23/2, 12, 9, 10, 0⟩]).result = some TradeResult.win := by
  have h := (simulateTradeOutcome_decision ⟨.buy, 10, 12, none, 1/2, 1⟩ 9 0
    false ⟨1, 23/2, 12, 9, 10, 0⟩ [] (by decide)).1 ⟨by decide, by decide⟩
  rw [h]
  dsimp only
  rw [abs_of_nonneg (by norm_num : (0:ℚ) ≤ 23/2 - 9),
      abs_of_nonpos (by norm_num : (23:ℚ)/2 - 12 ≤ 0)]
  norm_num

/-- C4: whenever the simulator loop closes a trade, the reported pnl is
`partialRealized + move * remainingFraction * size`: `partialRealized`
and `partialHit` are the returned final values, `move` is the signed
entry-to-boundary distance for the closing boundary (the target on a
win; on a loss the stop in force at the close — the entry if a partial
was realized during this run, the initial stop otherwise), and the
remaining fraction is `1 - partialFraction` when a partial was realized
and `1` otherwise. -/
theorem simulateTradeOutcome_pnl (p : SimParams) :
    ∀ (bars : List Candle) (stop pr : ℚ) (ph : Bool) (r : TradeResult),
      (simLoop p stop pr ph bars).result = some r →
      ∃ prF phF, (simLoop p stop pr ph bars).partialRealized = some prF ∧
        (simLoop p stop pr ph bars).partialHit = some phF ∧
        (ph = true → phF = true) ∧
        (simLoop p stop pr ph bars).pnl = some (prF +
          simMove p.dir p.entry p.target
            (if ph = false ∧ phF = true then p.entry else stop) r *
          (if phF = true then 1 - p.partialFraction else 1) * p.size) := by
  intro bars
  induction bars with
  | nil =>
      intro stop pr ph r hr
      by_cases h0 : pr = 0 <;> simp [simLoop, h0] at hr
  | cons candle rest ih =>
      intro stop pr ph r hr
      by_cases hpf : partialFires p ph candle = true
      · have hph : ph = false := partialFires_ph hpf
        rw [simLoop_cons_hitPartial p stop pr ph candle rest hpf] at hr ⊢
        obtain ⟨prF, phF, h1, h2, h3, h4⟩ := ih _ _ _ _ hr
        have hphF : phF = true := h3 rfl
        refine ⟨prF, phF, h1, h2, by simp [hph, hphF], ?_⟩
        rw [h4]
        subst hph hphF
        simp
      · rw [Bool.not_eq_true] at hpf
        by_cases hcross : hitStopB p.dir stop candle = false ∧
            hitTargetB p.dir p.target candle = false
        · rw [simLoop_cons_skip p stop pr ph candle rest hpf hcross] at hr ⊢
          exact ih _ _ _ _ hr
        · rw [simLoop_cons_close p stop pr ph candle rest hpf hcross] at hr ⊢
          injection hr with hr
          refine ⟨pr, ph, rfl, rfl, fun h => h, ?_⟩
          subst hr
          cases ph <;> simp

/-- C4 witness: the theorem applied to a one-bar winning run (entry 10,
stop 9, target 12, bar low 11 / high 12), with the closing hypothesis
discharged by evaluation. -/
theorem simulateTradeOutcome_pnl_witness :
    ∃ prF phF, (simLoop ⟨.buy, 10, 12, none, 1/2, 1⟩ 9 0 false
        [⟨1, 10, 12, 11, 10, 0⟩]).partialRealized = some prF ∧
      (simLoop ⟨.buy, 10, 12, none, 1/2, 1⟩ 9 0 false
        [⟨1, 10, 12, 11, 10, 0⟩]).partialHit = some phF ∧
      (false = true → phF = true) ∧
      (simLoop ⟨.buy, 10, 12, none, 1/2, 1⟩ 9 0 false
        [⟨1, 10, 12, 11, 10, 0⟩]).pnl = some (prF +
          simMove Dir.buy 10 12
            (if false = false ∧ phF = true then 10 else 9) TradeResult.win *
          (if phF = true then 1 - 1/2 else 1) * 1) :=
  simulateTradeOutcome_pnl ⟨.buy, 10, 12, none, 1/2, 1⟩
    [⟨1, 10, 12, 11, 10, 0⟩] 9 0 false .win (by decide)

theorem liveAutoPartial_fields {t : BacktestTrade} {l : Candle}
    {t' : BacktestTrade} (h : liveAutoPartial t l = some t') :
    t'.status = t.status ∧ t'.result = t.result := by
  unfold liveAutoPartial at h
  cases htp : t.takePartial with
  | none => rw [htp] at h; cases h
  | some tp =>
      rw [htp] at h
      dsimp only at h
      split_ifs at h
      all_goals
        first
        | (injection h with h; subst h; exact ⟨rfl, rfl⟩)
        | simp at h

theorem liveBreakeven_fields {t : BacktestTrade} {l : Candle}
    {t' : BacktestTrade} (h : liveBreakeven t l = some t') :
    t'.status = t.status ∧ t'.result = t.result := by
  dsimp only [liveBreakeven] at h
  split_ifs at h
  all_goals
    first
    | (injection h with h; subst h; exact ⟨rfl, rfl⟩)
    | simp at h

theorem liveTrail_fields {t : BacktestTrade} {l : Candle} {atr : ℚ}
    {t' : BacktestTrade} (h : liveTrail t l atr = some t') :
    t'.status = t.status ∧ t'.result = t.result := by
  unfold liveTrail at h
  split_ifs at h
  all_goals
    first
    | (cases hd : t.direction <;> rw [hd] at h <;> dsimp only at h <;>
        first
        | (injection h with h; subst h; exact ⟨rfl, rfl⟩)
        | simp at h)
    | simp at h

theorem manualClose_closes {t : BacktestTrade} {l : Candle}
    {t' : BacktestTrade} (h : manualClose t l = some t') :
    t'.status = some TradeStatus.closed := by
  unfold manualClose at h
  cases ho : liveOutcome t.direction t.stop t.target l with
  | none => rw [ho] at h; cases h
  | some oc =>
      rw [ho] at h
      injection h with h
      subst h
      rfl

theorem liveClose_closes {t : BacktestTrade} {l : Candle}
    {t' : BacktestTrade} (h : liveClose t l = some t') :
    t'.status = some TradeStatus.closed := by
  unfold liveClose at h
  cases ho : liveOutcome t.direction t.stop t.target l with
  | none => rw [ho] at h; cases h
  | some oc =>
      rw [ho] at h
      injection h with h
      subst h
      rfl

theorem resolveAuto_cases {t : BacktestTrade} {l : Candle} {atr : ℚ}
    {t' : BacktestTrade} (h : resolveAuto t l atr = some t') :
    (t'.status = t.status ∧ t'.result = t.result) ∨
      t'.status = some TradeStatus.closed := by
  unfold resolveAuto at h
  cases h1 : liveAutoPartial t l with
  | some u =>
      rw [h1] at h
      injection h with h
      subst h
      exact Or.inl (liveAutoPartial_fields h1)
  | none =>
      rw [h1] at h
      cases h2 : liveBreakeven t l with
      | some u =>
          rw [h2] at h
          injection h with h
          subst h
          exact Or.inl (liveBreakeven_fields h2)
      | none =>
          rw [h2] at h
          cases h3 : liveTrail t l atr with
          | some u =>
              rw [h3] at h
              injection h with h
              subst h
              exact Or.inl (liveTrail_fields h3)
          | none =>
              rw [h3] at h
              exact Or.inr (liveClose_closes h)

theorem effStatus_congr {a b : BacktestTrade} (h1 : a.status = b.status)
    (h2 : a.result = b.result) : effStatus a = effStatus b := by
  unfold effStatus
  rw [h1, h2]



/-- C5: the per-bar trade-resolution step never touches a closed or
canceled trade (no update is issued for it), and every update it does
issue either leaves the effective status unchanged (fills `openTime`,
realizes a partial, moves the stop) or performs one of the transitions
planned → active (manual entry fill) or active → closed (stop/target
resolution). In particular no closed or canceled trade ever transitions
to another status. -/
theorem resolveTradeStep_status (t : BacktestTrade) (bar : Candle) (atr : ℚ) :
    ((effStatus t = .closed ∨ effStatus t = .canceled) →
      resolveTradeStep t bar atr = none) ∧
    (∀ t', resolveTradeStep t bar atr = some t' →
      effStatus t' = effStatus t ∨
      (effStatus t = .planned ∧ effStatus t' = .active) ∨
      (effStatus t = .active ∧ effStatus t' = .closed)) := by
  constructor
  · intro h
    unfold resolveTradeStep
    rcases h with h | h <;> rw [h]
  · intro t' h
    unfold resolveTradeStep at h
    cases hst : effStatus t <;> rw [hst] at h <;> dsimp only at h
    case planned =>
      by_cases h1 : t.manual.getD false = true
      · rw [if_pos h1] at h
        by_cases h2 : bar.l ≤ t.entry ∧ t.entry ≤ bar.h
        · rw [if_pos h2] at h
          injection h with h
          subst h
          exact Or.inr (Or.inl ⟨rfl, rfl⟩)
        · rw [if_neg h2] at h
          exact Option.noConfusion h
      · rw [if_neg h1] at h
        exact Option.noConfusion h
    case active =>
      by_cases h1 : t.result.isSome = true
      · rw [if_pos h1] at h
        exact Option.noConfusion h
      · rw [if_neg h1] at h
        cases hot : t.openTime with
        | none =>
            rw [hot] at h
            dsimp only at h
            injection h with h
            subst h
            exact Or.inl ((effStatus_congr rfl rfl).trans hst)
        | some ot =>
            rw [hot] at h
            dsimp only at h
            by_cases h2 : bar.t ≤ ot
            · rw [if_pos h2] at h
              exact Option.noConfusion h
            · rw [if_neg h2] at h
              by_cases h3 : t.manual.getD false = true ∨ t.signalId = none
              · rw [if_pos h3] at h
                exact Or.inr (Or.inr ⟨rfl, by
                  simp [effStatus, manualClose_closes h]⟩)
              · rw [if_neg h3] at h
                rcases resolveAuto_cases h with ⟨ha, hb⟩ | hcl
                · exact Or.inl ((effStatus_congr ha hb).trans hst)
                · exact Or.inr (Or.inr ⟨rfl, by simp [effStatus, hcl]⟩)
    case closed => exact Option.noConfusion h
    case canceled => exact Option.noConfusion h

/-- A trade already marked closed. -/
def wClosedTrade : BacktestTrade :=
  { direction := .buy, entry := 10, stop := 9, target := 12,
    status := some .closed }

/-- C5 witness: the theorem applied to a closed trade and a concrete
bar — the resolver issues no update. -/
theorem resolveTradeStep_status_witness :
    resolveTradeStep wClosedTrade (Candle.mk 0 1 1 1 1 0) 0 = none :=
  (resolveTradeStep_status wClosedTrade (Candle.mk 0 1 1 1 1 0) 0).1
    (Or.inl rfl)
